import Mathlib

/-!
Verification development for the p2-github-scheduler reconciliation engine.

The Go sources are shallowly embedded as executable Lean definitions:

* `time.Time` is modelled by `Time`, a calendar day index (`day`, days since
  a fixed epoch) plus an intra-day instant (`tod`).  Go's zero time is
  `⟨0, 0⟩`, `Format("2006-01-02")`-equality is day equality, and
  `time.After` is the lexicographic strict order on `(day, tod)`.
* Go `float64` estimate values are modelled by `ℚ` (the comparisons the code
  performs are exact order comparisons, which agree with the rational order
  on all values the program manipulates).
* Go maps with string keys are modelled by association lists
  (`List (String × IssueWithProject)`); the program builds these maps with
  distinct keys, and lookups are first-match lookups.
* Date formatting in diagnostic details is abstracted by `dateStr`, an
  injective rendering of the calendar day.
-/

namespace P2

/-- Model of Go `time.Time`: calendar day index plus time of day. -/
structure Time where
  day : Nat
  tod : Nat
deriving DecidableEq, Repr

/-- Go `t.IsZero()`: the zero time. -/
def Time.isZero (t : Time) : Bool := t.day == 0 && t.tod == 0

/-- Go `a.After(b)`: strict instant order. -/
def Time.after (a b : Time) : Bool :=
  b.day < a.day || (a.day == b.day && b.tod < a.tod)

/-- Go `a.Before(b)`: strict instant order. -/
def Time.before (a b : Time) : Bool :=
  a.day < b.day || (a.day == b.day && a.tod < b.tod)

/-- Go `a.Equal(b)`: instant equality. -/
def Time.equal (a b : Time) : Bool := a.day == b.day && a.tod == b.tod

/-- Abstraction of `t.Format("2006-01-02")`: renders the calendar day. -/
def dateStr (t : Time) : String := toString t.day

/-- `sameDate` from the diff engine (src/unnamed/part_004): a nil recorded
date equals a zero proposal, otherwise compare the date portions only. -/
def sameDate (existing : Option Time) (n : Time) : Bool :=
  match existing with
  | none => n.isZero
  | some e => e.day == n.day

/-- Go `strings.EqualFold` restricted to the per-character case folding the
program needs (it only ever compares against the ASCII literal "closed"). -/
def eqFold (a b : String) : Bool :=
  a.toList.map Char.toLower == b.toList.map Char.toLower

/-- One `(owner, repo, number)` edge endpoint (`github.IssueRef`). -/
structure IssueRef where
  owner : String
  repo : String
  number : Nat
deriving DecidableEq, Repr

/-- `IssueWithProject`: one work item snapshot.  The project linkage payload
(`github.ProjectItemInfo`) is only ever nil-checked and copied, so it is
modelled as an opaque `Option String`. -/
structure IssueWithProject where
  owner : String := ""
  repo : String := ""
  issueNum : Nat := 0
  title : String := ""
  state : String := ""
  assignee : String := ""
  milestone : String := ""
  milestoneDueDate : Option Time := none
  dueDate : Option Time := none
  project : Option String := none
  lowEstimate : Option ℚ := none
  highEstimate : Option ℚ := none
  order : Int := 0
  schedulingStatus : String := ""
  hasSchedulingDates : Bool := false
  hasEstimates : Bool := false
  blockedBy : List IssueRef := []
  inaccessibleBlockers : Nat := 0
  isDraft : Bool := false
  projectItemID : String := ""
  isPrivate : Bool := false
  expectedStart : Option Time := none
  expectedCompletion : Option Time := none
  completion98 : Option Time := none
deriving DecidableEq, Repr

/-- The WorkItem store: reference key to snapshot (Go `map[string]IssueWithProject`). -/
abbrev Store := List (String × IssueWithProject)

/-- First-match lookup, the model of Go map indexing for stores built with
distinct keys. -/
def lookupRef (store : Store) (ref : String) : Option IssueWithProject :=
  (store.find? (fun p => p.1 == ref)).map (fun p => p.2)

/-- `fmt.Sprintf("%s/%s#%d", owner, repo, num)` as used throughout the diff engine. -/
def taskIDOf (iwp : IssueWithProject) : String :=
  iwp.owner ++ "/" ++ iwp.repo ++ "#" ++ toString iwp.issueNum

/-- `fmt.Sprintf("github.com/%s/%s/issues/%d", ...)` recomputed from a snapshot. -/
def refOf (iwp : IssueWithProject) : String :=
  "github.com/" ++ iwp.owner ++ "/" ++ iwp.repo ++ "/issues/" ++ toString iwp.issueNum

/-- `DateUpdate`: one proposed field write. -/
structure DateUpdate where
  owner : String := ""
  repo : String := ""
  repoKey : String := ""
  issueNum : Nat := 0
  name : String := ""
  project : Option String := none
  expectedStart : Time := ⟨0, 0⟩
  expectedCompletion : Time := ⟨0, 0⟩
  completion98 : Time := ⟨0, 0⟩
  clearDates : Bool := false
  clearReason : String := ""
deriving DecidableEq, Repr

/-- `SchedulingIssue`: one diagnostic record. -/
structure SchedulingIssue where
  issueRef : String := ""
  issueNum : Nat := 0
  owner : String := ""
  repo : String := ""
  reason : String := ""
  details : List String := []
deriving DecidableEq, Repr

/-- One scheduler output bar (`planner.GanttBar`), restricted to the fields
the reconciliation engine reads. -/
structure GanttBar where
  id : String := ""
  name : String := ""
  isPackage : Bool := false
  expStartDate : Time := ⟨0, 0⟩
  meanDate : Time := ⟨0, 0⟩
  end98Date : Time := ⟨0, 0⟩
deriving DecidableEq, Repr

/-- `planner.GanttData`. -/
structure GanttData where
  bars : List GanttBar := []
deriving DecidableEq, Repr

/-- One scheduler result entry (`planner.ScheduledEntry`), restricted to the
fields the cycle extractor reads. -/
structure ScheduledEntry where
  id : String := ""
  isPackage : Bool := false
  cycle : List String := []
deriving DecidableEq, Repr

/-- `planner.ScheduledEntries`. -/
structure ScheduledEntries where
  entries : List ScheduledEntry := []
deriving DecidableEq, Repr

/-! ### The diff / reconciliation engine (`PrepareUpdates`, src/unnamed/part_004) -/

/-- The clear write Pass 1 and Pass 2 emit. -/
def clearUpdate (iwp : IssueWithProject) (reason : String) : DateUpdate :=
  { owner := iwp.owner
    repo := iwp.repo
    repoKey := iwp.owner ++ "/" ++ iwp.repo
    issueNum := iwp.issueNum
    name := iwp.title
    project := iwp.project
    clearDates := true
    clearReason := reason }

/-- The set-dates write Pass 3 emits for a gantt bar. -/
def setUpdate (iwp : IssueWithProject) (bar : GanttBar) : DateUpdate :=
  { owner := iwp.owner
    repo := iwp.repo
    repoKey := iwp.owner ++ "/" ++ iwp.repo
    issueNum := iwp.issueNum
    name := bar.name
    project := iwp.project
    expectedStart := bar.expStartDate
    expectedCompletion := bar.meanDate
    completion98 := bar.end98Date }

/-- Pass 1 body for one store entry: the emitted clear (if any) and the
`processed` mark (if any).  Mirrors the first loop of `PrepareUpdates`. -/
def pass1Step (iwp : IssueWithProject) : Option DateUpdate × Option String :=
  match iwp.project with
  | none => (none, none)
  | some _ =>
    let tid := taskIDOf iwp
    let isOnHold := iwp.schedulingStatus == "On Hold"
    let isClosed := eqFold iwp.state "closed"
    if isOnHold || isClosed then
      if isOnHold && !iwp.hasSchedulingDates then (none, some tid)
      else if isClosed && !iwp.hasSchedulingDates
          && iwp.lowEstimate.isNone && iwp.highEstimate.isNone then (none, some tid)
      else (some (clearUpdate iwp (if isClosed then "closed" else "on hold")), some tid)
    else (none, none)

/-- Pass 1 over the whole store: accumulated clears and `processed` marks. -/
def prepPass1 : Store → List DateUpdate × List String
  | [] => ([], [])
  | (_, iwp) :: rest =>
    let (us, ps) := prepPass1 rest
    ((pass1Step iwp).1.toList ++ us, (pass1Step iwp).2.toList ++ ps)

/-- Pass 2 over the store: clears for unschedulable items that still carry
dates, threading the `processed` set.  Mirrors the second loop. -/
def prepPass2 (unsched : String → Bool) : Store → List String → List DateUpdate × List String
  | [], ps => ([], ps)
  | (ref, iwp) :: rest, ps =>
    match iwp.project with
    | none => prepPass2 unsched rest ps
    | some _ =>
      let tid := taskIDOf iwp
      if ps.contains tid then prepPass2 unsched rest ps
      else if unsched ref && iwp.hasSchedulingDates then
        let out := prepPass2 unsched rest (tid :: ps)
        (clearUpdate iwp "unschedulable" :: out.1, out.2)
      else prepPass2 unsched rest ps

/-- The `taskToIssue` lookup of Pass 3 (Go builds a map keyed by task ID;
stores with distinct task IDs make this a first-match lookup). -/
def lookupTask (store : Store) (tid : String) : Option IssueWithProject :=
  (store.find? (fun p => taskIDOf p.2 == tid)).map (fun p => p.2)

/-- The three-way date comparison of Pass 3. -/
def same3 (iwp : IssueWithProject) (bar : GanttBar) : Bool :=
  sameDate iwp.expectedStart bar.expStartDate
    && sameDate iwp.expectedCompletion bar.meanDate
    && sameDate iwp.completion98 bar.end98Date

/-- Pass 3 over the gantt bars: set-dates writes for active entries whose
dates changed.  Mirrors the third loop. -/
def prepPass3 (store : Store) (unsched : String → Bool) (ps : List String) :
    List GanttBar → List DateUpdate
  | [] => []
  | bar :: rest =>
    let tail := prepPass3 store unsched ps rest
    if bar.isPackage then tail
    else
      match lookupTask store bar.id with
      | none => tail
      | some iwp =>
        match iwp.project with
        | none => tail
        | some _ =>
          if ps.contains bar.id then tail
          else if unsched (refOf iwp) then tail
          else if same3 iwp bar then tail
          else setUpdate iwp bar :: tail

/-- `PrepareUpdates(ganttData, issues, unschedulable)`. -/
def PrepareUpdates (gantt : GanttData) (store : Store) (unsched : String → Bool) :
    List DateUpdate :=
  let out1 := prepPass1 store
  let out2 := prepPass2 unsched store out1.2
  out1.1 ++ out2.1 ++ prepPass3 store unsched out2.2 gantt.bars

/-! ### Reflecting a run's writes back into the store

`ApplyUpdate` (src/unnamed/part_005) clears the three date fields for a clear
write and additionally clears both estimate fields when the clear reason is
`"closed"`; a set-dates write records the proposed dates.  `reflectStore`
reflects those field writes into the snapshots: each recorded date becomes the
proposed date, an absent (zero) proposal being recorded as unset — the diff
engine's own date equality (`sameDate`) treats an unset recorded date and a
zero proposal as the same value.  The derived `hasSchedulingDates` flag
("true if any scheduling date fields are set") is recomputed. -/

/-- Apply one matching write to a snapshot. -/
def applyUpdate (iwp : IssueWithProject) (u : DateUpdate) : IssueWithProject :=
  if u.clearDates then
    { iwp with
      expectedStart := none
      expectedCompletion := none
      completion98 := none
      hasSchedulingDates := false
      lowEstimate := if u.clearReason == "closed" then none else iwp.lowEstimate
      highEstimate := if u.clearReason == "closed" then none else iwp.highEstimate
      hasEstimates := if u.clearReason == "closed" then false else iwp.hasEstimates }
  else
    let rec₁ : Option Time := if u.expectedStart.isZero then none else some u.expectedStart
    let rec₂ : Option Time := if u.expectedCompletion.isZero then none else some u.expectedCompletion
    let rec₃ : Option Time := if u.completion98.isZero then none else some u.completion98
    { iwp with
      expectedStart := rec₁
      expectedCompletion := rec₂
      completion98 := rec₃
      hasSchedulingDates := rec₁.isSome || rec₂.isSome || rec₃.isSome }

/-- Does a write target this snapshot's issue? -/
def tripleMatch (iwp : IssueWithProject) (u : DateUpdate) : Bool :=
  u.owner == iwp.owner && u.repo == iwp.repo && u.issueNum == iwp.issueNum

/-- Apply every matching write of a run, in order. -/
def applyAll (iwp : IssueWithProject) (us : List DateUpdate) : IssueWithProject :=
  us.foldl (fun w u => if tripleMatch w u then applyUpdate w u else w) iwp

/-- Reflect a run's writes into every snapshot of the store. -/
def reflectStore (store : Store) (us : List DateUpdate) : Store :=
  store.map (fun p => (p.1, applyAll p.2 us))

/-! ### The at-risk detector (`DetectAtRiskIssues`, src/unnamed/part_004) -/

/-- The reference key `DetectAtRiskIssues` recomputes for an update. -/
def refOfUpdate (u : DateUpdate) : String :=
  "github.com/" ++ u.owner ++ "/" ++ u.repo ++ "/issues/" ++ toString u.issueNum

/-- The at-risk diagnostic built for one update. -/
def atRiskIssue (ref : String) (iwp : IssueWithProject) (dd : Time) (u : DateUpdate) :
    SchedulingIssue :=
  { issueRef := ref
    issueNum := iwp.issueNum
    owner := iwp.owner
    repo := iwp.repo
    reason := "at_risk"
    details := ["Due Date: " ++ dateStr dd,
                "Expected Completion: " ++ dateStr u.expectedCompletion] }

/-- `DetectAtRiskIssues(updates, issues)`. -/
def DetectAtRiskIssues (updates : List DateUpdate) (store : Store) : List SchedulingIssue :=
  match updates with
  | [] => []
  | u :: rest =>
    let tail := DetectAtRiskIssues rest store
    if u.clearDates then tail
    else
      match lookupRef store (refOfUpdate u) with
      | none => tail
      | some iwp =>
        match iwp.dueDate with
        | none => tail
        | some dd =>
          if !u.expectedCompletion.isZero && u.expectedCompletion.after dd then
            atRiskIssue (refOfUpdate u) iwp dd u :: tail
          else tail

/-! ### The cycle extractor (`ExtractCycleIssues`, src/unnamed/part_004) -/

/-- The cycle diagnostic built for one store entry and entry cycle path. -/
def cycleIssue (ref : String) (iwp : IssueWithProject) (cyc : List String) : SchedulingIssue :=
  { issueRef := ref
    issueNum := iwp.issueNum
    owner := iwp.owner
    repo := iwp.repo
    reason := "cycle"
    details := cyc }

/-- The inner search of `ExtractCycleIssues`: the first store entry whose task
ID matches the result entry and which carries no diagnostic yet. -/
def findCycleTarget (store : Store) (hs : List String) (id : String) :
    Option (String × IssueWithProject) :=
  store.find? (fun p => taskIDOf p.2 == id && !hs.contains p.1)

/-- Worker for `ExtractCycleIssues`, threading the accumulated issues and the
set of reference keys already holding a diagnostic. -/
def extractCycleAux (store : Store) :
    List ScheduledEntry → List SchedulingIssue → List String → List SchedulingIssue
  | [], acc, _ => acc
  | e :: rest, acc, hs =>
    if e.isPackage || e.cycle.isEmpty then extractCycleAux store rest acc hs
    else
      match findCycleTarget store hs e.id with
      | none => extractCycleAux store rest acc hs
      | some p => extractCycleAux store rest (acc ++ [cycleIssue p.1 p.2 e.cycle]) (p.1 :: hs)

/-- `ExtractCycleIssues(entries, issues, existing)`. -/
def ExtractCycleIssues (entries : ScheduledEntries) (store : Store)
    (existing : List SchedulingIssue) : List SchedulingIssue :=
  extractCycleAux store entries.entries existing (existing.map (fun si => si.issueRef))

/-! ### The privacy filter (src/unnamed/part_003) -/

/-- `PrivacyFilter`: current container plus the private repository set. -/
structure PrivacyFilter where
  currentRepo : String
  privateRepos : List String
deriving DecidableEq, Repr

/-- `NewPrivacyFilter(currentRepo, issues)`. -/
def NewPrivacyFilter (currentRepo : String) (store : Store) : PrivacyFilter :=
  { currentRepo := currentRepo
    privateRepos :=
      (store.filter (fun p => p.2.isPrivate)).map (fun p => p.2.owner ++ "/" ++ p.2.repo) }

/-- `ShouldRedact(owner, repo)`. -/
def ShouldRedact (pf : PrivacyFilter) (owner repo : String) : Bool :=
  pf.privateRepos.contains (owner ++ "/" ++ repo) && (owner ++ "/" ++ repo) != pf.currentRepo

/-- `RedactRepo(owner, repo)`. -/
def RedactRepo (pf : PrivacyFilter) (owner repo : String) : String :=
  if ShouldRedact pf owner repo then "[private]" else owner ++ "/" ++ repo

/-- `RedactRef(owner, repo, issueNum)`. -/
def RedactRef (pf : PrivacyFilter) (owner repo : String) (issueNum : Nat) : String :=
  if ShouldRedact pf owner repo then "[private] #" ++ toString issueNum
  else owner ++ "/" ++ repo ++ " #" ++ toString issueNum

/-- `RedactTitle(owner, repo, title)`. -/
def RedactTitle (pf : PrivacyFilter) (owner repo title : String) : String :=
  if ShouldRedact pf owner repo then "" else title

/-- Split at the last `'#'`: Go `strings.LastIndex(s, "#")`. -/
def splitLastHash : List Char → Option (List Char × List Char)
  | [] => none
  | c :: cs =>
    match splitLastHash cs with
    | some p => some (c :: p.1, p.2)
    | none => if c == '#' then some ([], cs) else none

/-- Split at the first `'/'`: Go `strings.Index(s, "/")`. -/
def splitFirstSlash : List Char → Option (List Char × List Char)
  | [] => none
  | c :: cs =>
    if c == '/' then some ([], cs)
    else
      match splitFirstSlash cs with
      | some p => some (c :: p.1, p.2)
      | none => none

/-- Go `strconv.Atoi`: optional sign, then one or more decimal digits. -/
def atoi? (s : String) : Option Int :=
  let cs := s.toList
  let core : List Char → Option Nat := fun ds =>
    if ds.isEmpty || !ds.all Char.isDigit then none
    else some (ds.foldl (fun n c => n * 10 + (c.toNat - '0'.toNat)) 0)
  match cs with
  | '-' :: rest => (core rest).map (fun n => -(n : Int))
  | '+' :: rest => (core rest).map (fun n => (n : Int))
  | _ => (core cs).map (fun n => (n : Int))

/-- `RedactDepID(depID)`: parse `"owner/repo#N"` and redact when the parsed
repository should be redacted. -/
def RedactDepID (pf : PrivacyFilter) (depID : String) : String :=
  match splitLastHash depID.toList with
  | none => depID
  | some pr =>
    match atoi? (String.mk pr.2) with
    | none => depID
    | some num =>
      match splitFirstSlash pr.1 with
      | none => depID
      | some orp =>
        if ShouldRedact pf (String.mk orp.1) (String.mk orp.2) then
          "[private]#" ++ toString num
        else depID

/-! ### The task normalizer (`IssuesToTasks`, src/p2/convert.go) -/

/-- Scheduler task (`planner.Task`), restricted to the fields the normalizer
writes.  The lseq sequence strings are abstracted by their position. -/
structure Task where
  id : String := ""
  sequence : Nat := 0
  name : String := ""
  ref : List String := []
  done : Bool := false
  estimateLow : ℚ := 0
  estimateHigh : ℚ := 0
  user : String := ""
  onHold : Bool := false
  packageID : String := ""
  packageOrder : Nat := 0
  dependsOn : List String := []
deriving DecidableEq, Repr

/-- A parsed semantic version. -/
structure Semver where
  major : Nat := 0
  minor : Nat := 0
  patch : Nat := 0
deriving DecidableEq, Repr

/-- Decimal value of a digit run. -/
def digitsToNat (ds : List Char) : Nat :=
  ds.foldl (fun n c => n * 10 + (c.toNat - '0'.toNat)) 0

/-- Maximal leading digit run. -/
def takeDigits (cs : List Char) : List Char × List Char :=
  match cs with
  | [] => ([], [])
  | c :: rest =>
    if c.isDigit then
      let p := takeDigits rest
      (c :: p.1, p.2)
    else ([], cs)

/-- Match `(\d+)\.(\d+)\.(\d+)` at the head of the input. -/
def matchSemverCore (cs : List Char) : Option Semver :=
  let p1 := takeDigits cs
  if p1.1.isEmpty then none
  else
    match p1.2 with
    | '.' :: r2 =>
      let p2 := takeDigits r2
      if p2.1.isEmpty then none
      else
        match p2.2 with
        | '.' :: r4 =>
          let p3 := takeDigits r4
          if p3.1.isEmpty then none
          else some ⟨digitsToNat p1.1, digitsToNat p2.1, digitsToNat p3.1⟩
        | _ => none
    | _ => none

/-- Match `v?(\d+)\.(\d+)\.(\d+)` (case-insensitive `v`) at the head. -/
def matchSemverAt (cs : List Char) : Option Semver :=
  match cs with
  | [] => none
  | c :: rest =>
    if c == 'v' || c == 'V' then
      match matchSemverCore rest with
      | some sv => some sv
      | none => matchSemverCore cs
    else matchSemverCore cs

/-- `parseSemver`: leftmost match of the pattern anywhere in the label,
mirroring `regexp.FindStringSubmatch` with pattern `(?i)v?(\d+)\.(\d+)\.(\d+)`. -/
def parseSemver (s : String) : Option Semver :=
  go s.toList
where
  go : List Char → Option Semver
    | [] => none
    | c :: rest =>
      match matchSemverAt (c :: rest) with
      | some sv => some sv
      | none => go rest

/-- `compareSemver`. -/
def compareSemver (a b : Semver) : Int :=
  if a.major ≠ b.major then (if a.major < b.major then -1 else 1)
  else if a.minor ≠ b.minor then (if a.minor < b.minor then -1 else 1)
  else if a.patch ≠ b.patch then (if a.patch < b.patch then -1 else 1)
  else 0

/-- `packageInfo`: one task grouping ("package"). -/
structure PackageInfo where
  id : String := ""
  hasDueDate : Bool := false
  dueDate : Time := ⟨0, 0⟩
  hasSemver : Bool := false
  semver : Semver := {}
  firstOrder : Nat := 0
deriving DecidableEq, Repr

/-- Record a milestone due date into a group: keep the earliest seen. -/
def updateDue (info : PackageInfo) (d : Option Time) : PackageInfo :=
  match d with
  | none => info
  | some t =>
    if !info.hasDueDate || t.before info.dueDate then
      { info with hasDueDate := true, dueDate := t }
    else info

/-- Fresh group record created at first-seen index `i`. -/
def newPackageInfo (pkgID : String) (i : Nat) : PackageInfo :=
  match parseSemver pkgID with
  | some sv => { id := pkgID, firstOrder := i, hasSemver := true, semver := sv }
  | none => { id := pkgID, firstOrder := i }

/-- Fold one indexed issue into the group records (insertion-ordered list
models Go's `packageInfos` map). -/
def addPkg (acc : List PackageInfo) (i : Nat) (iwp : IssueWithProject) : List PackageInfo :=
  if iwp.milestone == "" then acc
  else if acc.any (fun info => info.id == iwp.milestone) then
    acc.map (fun info =>
      if info.id == iwp.milestone then updateDue info iwp.milestoneDueDate else info)
  else acc ++ [updateDue (newPackageInfo iwp.milestone i) iwp.milestoneDueDate]

/-- Build the group records from the indexed, sorted issue list. -/
def buildPackageInfos (l : List (Nat × (String × IssueWithProject))) : List PackageInfo :=
  l.foldl (fun acc p => addPkg acc p.1 p.2.2) []

/-- The group comparator of the package orderer (the `sort.Slice` less
function over `orderedPackages`). -/
def pkgLess (a b : PackageInfo) : Bool :=
  if a.hasDueDate != b.hasDueDate then a.hasDueDate
  else if a.hasDueDate && b.hasDueDate && !(a.dueDate.equal b.dueDate) then
    a.dueDate.before b.dueDate
  else if a.hasSemver && b.hasSemver && compareSemver a.semver b.semver != 0 then
    decide (compareSemver a.semver b.semver < 0)
  else if a.hasSemver != b.hasSemver then a.hasSemver
  else a.firstOrder < b.firstOrder

/-- Total preorder derived from `pkgLess`; `pkgLess` is a strict total order
on any group list with pairwise distinct `firstOrder`, so sorting by this
preorder yields the unique ordering `sort.Slice` produces. -/
def pkgLe (a b : PackageInfo) : Bool := !pkgLess b a

/-- Sorted issue list: ascending display order (`sort.Slice` by `Order`). -/
def sortedIssues (store : Store) : Store :=
  store.insertionSort (fun a b => a.2.order ≤ b.2.order)

/-- The on-hold set the normalizer builds for dependency checking. -/
def onHoldKey (store : Store) (ref : String) : Bool :=
  match lookupRef store ref with
  | some iwp => iwp.schedulingStatus == "On Hold" || iwp.isDraft
  | none => false

/-- The dependency id string for one blocker. -/
def depIDOf (b : IssueRef) : String :=
  b.owner ++ "/" ++ b.repo ++ "#" ++ toString b.number

/-- The store key for one blocker. -/
def depKeyOf (b : IssueRef) : String :=
  "github.com/" ++ b.owner ++ "/" ++ b.repo ++ "/issues/" ++ toString b.number

/-- Classify the `blockedBy` edges: missing targets, on-hold targets and
genuine dependencies (closed targets fall through all three buckets).
Mirrors the blocker loop of `IssuesToTasks`. -/
def classifyDeps (store : Store) : List IssueRef → List String × List String × List String
  | [] => ([], [], [])
  | b :: rest =>
    let out := classifyDeps store rest
    match lookupRef store (depKeyOf b) with
    | none => (depIDOf b :: out.1, out.2.1, out.2.2)
    | some blocker =>
      if eqFold blocker.state "closed" then out
      else if onHoldKey store (depKeyOf b) then (out.1, depIDOf b :: out.2.1, out.2.2)
      else (out.1, out.2.1, depIDOf b :: out.2.2)

/-- The task id of one snapshot (drafts use a synthetic key). -/
def goTaskID (iwp : IssueWithProject) : String :=
  if iwp.isDraft then "draft:" ++ iwp.projectItemID else taskIDOf iwp

/-- Abstraction of the `%.1f` estimate rendering in detail strings. -/
def estStr (q : ℚ) : String := toString q

/-- The task built for one sorted store entry (index `i`, rank `rank`). -/
def buildTask (store : Store) (rank : String → Nat) (i : Nat) (ref : String)
    (iwp : IssueWithProject) : Task :=
  let done := eqFold iwp.state "closed"
  let noEst := iwp.lowEstimate.isNone && iwp.highEstimate.isNone
  { id := goTaskID iwp
    sequence := i
    name := iwp.title
    ref := [ref]
    done := done
    estimateLow :=
      match iwp.lowEstimate with
      | some q => q
      | none => if noEst && !done then 1 else 0
    estimateHigh :=
      match iwp.highEstimate with
      | some q => q
      | none => if noEst && !done then 4 else 0
    user := if iwp.assignee != "" then iwp.assignee else "unassigned"
    onHold := iwp.isDraft || iwp.schedulingStatus == "On Hold"
    packageID := iwp.milestone
    packageOrder := rank iwp.milestone
    dependsOn := (classifyDeps store iwp.blockedBy).2.2 }

/-- The diagnostics recorded for one sorted store entry. -/
def buildIssues (store : Store) (ref : String) (iwp : IssueWithProject) :
    List SchedulingIssue :=
  let onHold := iwp.isDraft || iwp.schedulingStatus == "On Hold"
  let done := eqFold iwp.state "closed"
  if onHold || done then []
  else
    let cls := classifyDeps store iwp.blockedBy
    let missingEstimates :=
      (if iwp.lowEstimate.isNone then ["Low Estimate"] else [])
        ++ (if iwp.highEstimate.isNone then ["High Estimate"] else [])
    (if !cls.1.isEmpty then
      [{ issueRef := ref, issueNum := iwp.issueNum, owner := iwp.owner, repo := iwp.repo
         reason := "missing_dependency", details := cls.1 }] else [])
    ++ (if !cls.2.1.isEmpty then
      [{ issueRef := ref, issueNum := iwp.issueNum, owner := iwp.owner, repo := iwp.repo
         reason := "onhold_dependency", details := cls.2.1 }] else [])
    ++ (if iwp.inaccessibleBlockers > 0 then
      [{ issueRef := ref, issueNum := iwp.issueNum, owner := iwp.owner, repo := iwp.repo
         reason := "inaccessible_dependency"
         details := [toString iwp.inaccessibleBlockers ++ " blocker(s) from inaccessible repositories"] }]
      else [])
    ++ (if !missingEstimates.isEmpty then
      [{ issueRef := ref, issueNum := iwp.issueNum, owner := iwp.owner, repo := iwp.repo
         reason := "missing_estimate", details := missingEstimates }] else [])
    ++ (match iwp.lowEstimate, iwp.highEstimate with
      | some lo, some hi =>
        if hi < lo then
          [{ issueRef := ref, issueNum := iwp.issueNum, owner := iwp.owner, repo := iwp.repo
             reason := "invalid_estimate"
             details := ["High Estimate (" ++ estStr hi
               ++ ") must be greater than or equal to Low Estimate (" ++ estStr lo ++ ")"] }]
        else []
      | _, _ => [])

/-- The ordered group list for a store. -/
def orderedPackages (store : Store) : List PackageInfo :=
  (buildPackageInfos (sortedIssues store).enum).insertionSort
    (fun a b => pkgLe a b = true)

/-- The rank assigned to a task's grouping label (`packageOrder` map lookup
with the unpackaged rank as fallback; the empty label is never a group). -/
def pkgRank (store : Store) (pkgID : String) : Nat :=
  let ordered := orderedPackages store
  if pkgID == "" then ordered.length
  else
    match ordered.findIdx? (fun info => info.id == pkgID) with
    | some i => i
    | none => ordered.length

/-- `IssuesToTasks(issues, privacy)`: tasks and diagnostics (the users output,
constant availability records, carries no reconciliation logic and is not
modelled). -/
def IssuesToTasks (store : Store) : List Task × List SchedulingIssue :=
  let sorted := sortedIssues store
  (sorted.enum.map (fun p => buildTask store (pkgRank store) p.1 p.2.1 p.2.2),
   sorted.flatMap (fun p => buildIssues store p.1 p.2))

/-! ## Basic lemmas -/

theorem splitLastHash_eq_none (l : List Char) (h : '#' ∉ l) : splitLastHash l = none := by
  induction l with
  | nil => rfl
  | cons c cs ih =>
    have hc : c ≠ '#' := fun hc => h (hc ▸ List.mem_cons_self c cs)
    have hcs : '#' ∉ cs := fun hm => h (List.mem_cons_of_mem c hm)
    simp [splitLastHash, ih hcs, hc]

theorem splitLastHash_append (xs ys : List Char) (h : '#' ∉ ys) :
    splitLastHash (xs ++ '#' :: ys) = some (xs, ys) := by
  induction xs with
  | nil => simp [splitLastHash, splitLastHash_eq_none ys h]
  | cons c cs ih => simp [splitLastHash, ih]

theorem splitFirstSlash_append (xs ys : List Char) (h : '/' ∉ xs) :
    splitFirstSlash (xs ++ '/' :: ys) = some (xs, ys) := by
  induction xs with
  | nil => simp [splitFirstSlash]
  | cons c cs ih =>
    have hc : c ≠ '/' := fun hc => h (hc ▸ List.mem_cons_self c cs)
    have hcs : '/' ∉ cs := fun hm => h (List.mem_cons_of_mem c hm)
    simp [splitFirstSlash, hc, ih hcs]

theorem toList_append (s t : String) : (s ++ t).toList = s.toList ++ t.toList :=
  String.data_append s t

/-! ## Claim C10: the privacy filter -/

/-- The spec-level redaction predicate: the repository belongs to some work
item flagged private and is not the current container. -/
def PrivateElsewhere (store : Store) (cur owner repo : String) : Prop :=
  (∃ p ∈ store, p.2.isPrivate = true ∧ p.2.owner ++ "/" ++ p.2.repo = owner ++ "/" ++ repo)
    ∧ owner ++ "/" ++ repo ≠ cur

instance (store : Store) (cur owner repo : String) :
    Decidable (PrivateElsewhere store cur owner repo) := by
  unfold PrivateElsewhere; infer_instance

theorem shouldRedact_iff (store : Store) (cur owner repo : String) :
    ShouldRedact (NewPrivacyFilter cur store) owner repo = true
      ↔ PrivateElsewhere store cur owner repo := by
  unfold ShouldRedact NewPrivacyFilter PrivateElsewhere
  simp only [Bool.and_eq_true, List.elem_iff, List.mem_map, List.mem_filter, bne_iff_ne,
    ne_eq]
  constructor
  · rintro ⟨⟨p, ⟨hp, hpriv⟩, heq⟩, hne⟩
    exact ⟨⟨p, hp, hpriv, heq⟩, hne⟩
  · rintro ⟨⟨p, hp, hpriv, heq⟩, hne⟩
    exact ⟨⟨p, ⟨hp, hpriv⟩, heq⟩, hne⟩

/-- Claim C10: `ShouldRedact` holds exactly for repositories of privately
flagged work items other than the current container, and the four redaction
helpers replace their content with the `[private]` placeholder (or empty
title) exactly when that predicate holds, returning the input unchanged
otherwise. -/
theorem C10_privacy_filter (store : Store) (cur owner repo title numStr : String)
    (issueNum : Nat) (num : Int)
    (hhash : '#' ∉ numStr.toList) (hslash : '/' ∉ owner.toList)
    (hnum : atoi? numStr = some num) :
    (ShouldRedact (NewPrivacyFilter cur store) owner repo = true
        ↔ PrivateElsewhere store cur owner repo)
    ∧ (PrivateElsewhere store cur owner repo →
        RedactRepo (NewPrivacyFilter cur store) owner repo = "[private]"
        ∧ RedactRef (NewPrivacyFilter cur store) owner repo issueNum
            = "[private] #" ++ toString issueNum
        ∧ RedactTitle (NewPrivacyFilter cur store) owner repo title = ""
        ∧ RedactDepID (NewPrivacyFilter cur store)
            (owner ++ "/" ++ repo ++ "#" ++ numStr) = "[private]#" ++ toString num)
    ∧ (¬PrivateElsewhere store cur owner repo →
        RedactRepo (NewPrivacyFilter cur store) owner repo = owner ++ "/" ++ repo
        ∧ RedactRef (NewPrivacyFilter cur store) owner repo issueNum
            = owner ++ "/" ++ repo ++ " #" ++ toString issueNum
        ∧ RedactTitle (NewPrivacyFilter cur store) owner repo title = title
        ∧ RedactDepID (NewPrivacyFilter cur store)
            (owner ++ "/" ++ repo ++ "#" ++ numStr)
            = owner ++ "/" ++ repo ++ "#" ++ numStr) := by
  have hiff := shouldRedact_iff store cur owner repo
  have hsplit : splitLastHash (owner ++ "/" ++ repo ++ "#" ++ numStr).toList
      = some ((owner ++ "/" ++ repo).toList, numStr.toList) := by
    have : (owner ++ "/" ++ repo ++ "#" ++ numStr).toList
        = (owner ++ "/" ++ repo).toList ++ '#' :: numStr.toList := by
      simp [toList_append]
    rw [this]
    exact splitLastHash_append _ _ hhash
  have hsplit2 : splitFirstSlash (owner ++ "/" ++ repo).toList
      = some (owner.toList, repo.toList) := by
    have : (owner ++ "/" ++ repo).toList = owner.toList ++ '/' :: repo.toList := by
      simp [toList_append]
    rw [this]
    exact splitFirstSlash_append _ _ hslash
  have hmk : ∀ s : String, String.mk s.toList = s := fun _ => rfl
  refine ⟨hiff, ?_, ?_⟩
  · intro hP
    have hb : ShouldRedact (NewPrivacyFilter cur store) owner repo = true := hiff.mpr hP
    refine ⟨?_, ?_, ?_, ?_⟩
    · simp [RedactRepo, hb]
    · simp [RedactRef, hb]
    · simp [RedactTitle, hb]
    · unfold RedactDepID
      rw [hsplit]
      simp only [hnum, hsplit2, hmk, hb]
      rfl
  · intro hP
    have hb : ShouldRedact (NewPrivacyFilter cur store) owner repo = false := by
      cases hsr : ShouldRedact (NewPrivacyFilter cur store) owner repo with
      | true => exact absurd (hiff.mp hsr) hP
      | false => rfl
    refine ⟨?_, ?_, ?_, ?_⟩
    · simp [RedactRepo, hb]
    · simp [RedactRef, hb]
    · simp [RedactTitle, hb]
    · unfold RedactDepID
      rw [hsplit]
      simp only [hnum, hsplit2, hmk, hb]
      rfl

/-- Witness for C10 at a concrete filter: `priv/x` is private and not the
current container, `own/cur` is the current container. -/
theorem C10_privacy_filter_witness :
    ('#' ∉ ("12" : String).toList ∧ '/' ∉ ("priv" : String).toList
      ∧ atoi? "12" = some 12)
    ∧ ((ShouldRedact (NewPrivacyFilter "own/cur"
          [("k", { owner := "priv", repo := "x", isPrivate := true })]) "priv" "x" = true
        ↔ PrivateElsewhere [("k", { owner := "priv", repo := "x", isPrivate := true })]
            "own/cur" "priv" "x")
      ∧ (PrivateElsewhere [("k", { owner := "priv", repo := "x", isPrivate := true })]
            "own/cur" "priv" "x" →
          RedactRepo (NewPrivacyFilter "own/cur"
              [("k", { owner := "priv", repo := "x", isPrivate := true })]) "priv" "x"
            = "[private]"
          ∧ RedactRef (NewPrivacyFilter "own/cur"
              [("k", { owner := "priv", repo := "x", isPrivate := true })]) "priv" "x" 12
            = "[private] #" ++ toString 12
          ∧ RedactTitle (NewPrivacyFilter "own/cur"
              [("k", { owner := "priv", repo := "x", isPrivate := true })]) "priv" "x" "t"
            = ""
          ∧ RedactDepID (NewPrivacyFilter "own/cur"
              [("k", { owner := "priv", repo := "x", isPrivate := true })])
              ("priv" ++ "/" ++ "x" ++ "#" ++ "12") = "[private]#" ++ toString 12)
      ∧ (¬PrivateElsewhere [("k", { owner := "priv", repo := "x", isPrivate := true })]
            "own/cur" "priv" "x" →
          RedactRepo (NewPrivacyFilter "own/cur"
              [("k", { owner := "priv", repo := "x", isPrivate := true })]) "priv" "x"
            = "priv" ++ "/" ++ "x"
          ∧ RedactRef (NewPrivacyFilter "own/cur"
              [("k", { owner := "priv", repo := "x", isPrivate := true })]) "priv" "x" 12
            = "priv" ++ "/" ++ "x" ++ " #" ++ toString 12
          ∧ RedactTitle (NewPrivacyFilter "own/cur"
              [("k", { owner := "priv", repo := "x", isPrivate := true })]) "priv" "x" "t"
            = "t"
          ∧ RedactDepID (NewPrivacyFilter "own/cur"
              [("k", { owner := "priv", repo := "x", isPrivate := true })])
              ("priv" ++ "/" ++ "x" ++ "#" ++ "12")
            = "priv" ++ "/" ++ "x" ++ "#" ++ "12")) :=
  ⟨⟨by decide, by decide, by decide⟩,
    C10_privacy_filter [("k", { owner := "priv", repo := "x", isPrivate := true })]
      "own/cur" "priv" "x" "t" "12" 12 12 (by decide) (by decide) (by decide)⟩

/-! ## Claim C5: the at-risk detector -/

theorem mem_detectAtRisk (store : Store) (updates : List DateUpdate) (si : SchedulingIssue) :
    si ∈ DetectAtRiskIssues updates store ↔
      ∃ u ∈ updates, u.clearDates = false ∧
        ∃ iwp dd, lookupRef store (refOfUpdate u) = some iwp ∧ iwp.dueDate = some dd ∧
          u.expectedCompletion.isZero = false ∧ u.expectedCompletion.after dd = true ∧
          si = atRiskIssue (refOfUpdate u) iwp dd u := by
  induction updates with
  | nil => simp [DetectAtRiskIssues]
  | cons u rest ih =>
    simp only [DetectAtRiskIssues, List.mem_cons, exists_eq_or_imp]
    by_cases hc : u.clearDates
    · simp [hc, ih]
    · simp only [Bool.not_eq_true] at hc
      simp only [hc, if_false, Bool.false_eq_true, false_and, Bool.not_eq_true, true_and]
      cases hlook : lookupRef store (refOfUpdate u) with
      | none => simp [ih]
      | some iwp =>
        dsimp only
        cases hdd : iwp.dueDate with
        | none =>
          dsimp only
          rw [ih]
          constructor
          · exact fun h => Or.inr h
          · rintro (⟨iwp', dd', h1, h2, -⟩ | h)
            · cases h1
              rw [hdd] at h2
              cases h2
            · exact h
        | some dd =>
          dsimp only
          by_cases hemit : (!u.expectedCompletion.isZero && u.expectedCompletion.after dd) = true
          · rw [if_pos hemit]
            have hz := (Bool.and_eq_true .. ▸ hemit).1
            have haf := (Bool.and_eq_true .. ▸ hemit).2
            rw [Bool.not_eq_true'] at hz
            rw [List.mem_cons, ih]
            constructor
            · rintro (rfl | h)
              · exact Or.inl ⟨iwp, dd, rfl, hdd, hz, haf, rfl⟩
              · exact Or.inr h
            · rintro (⟨iwp', dd', h1, h2, -, -, hsi⟩ | h)
              · cases h1
                rw [hdd] at h2
                cases h2
                exact Or.inl hsi
              · exact Or.inr h
          · rw [if_neg hemit]
            simp only [Bool.and_eq_true, Bool.not_eq_true', not_and] at hemit
            rw [ih]
            constructor
            · exact fun h => Or.inr h
            · rintro (⟨iwp', dd', h1, h2, hz, haf, -⟩ | h)
              · cases h1
                rw [hdd] at h2
                cases h2
                exact absurd haf (hemit hz)
              · exact h

/-- Claim C5 (corrected): an `at_risk` diagnostic is emitted for an update
exactly when it is a set-dates write whose work item is found, has a due
date, and whose proposed mean completion is non-zero and strictly after the
due date as an *instant* (time of day included) — not under a calendar-date
comparison.  When both timestamps are midnight (time of day zero), a mean
completion on the due date's calendar day is not at risk and one on the next
day is; clear updates and items without a due date never yield `at_risk`. -/
theorem C5_at_risk_instant (store : Store) (updates : List DateUpdate) :
    (∀ si, si ∈ DetectAtRiskIssues updates store ↔
      ∃ u ∈ updates, u.clearDates = false ∧
        ∃ iwp dd, lookupRef store (refOfUpdate u) = some iwp ∧ iwp.dueDate = some dd ∧
          u.expectedCompletion.isZero = false ∧ u.expectedCompletion.after dd = true ∧
          si = atRiskIssue (refOfUpdate u) iwp dd u)
    ∧ (DetectAtRiskIssues
        [{ owner := "o", repo := "r", issueNum := 1, expectedCompletion := ⟨200, 0⟩ }]
        [("github.com/o/r/issues/1",
          { owner := "o", repo := "r", issueNum := 1, dueDate := some ⟨200, 0⟩ })] = []
      ∧ DetectAtRiskIssues
        [{ owner := "o", repo := "r", issueNum := 1, expectedCompletion := ⟨201, 0⟩ }]
        [("github.com/o/r/issues/1",
          { owner := "o", repo := "r", issueNum := 1, dueDate := some ⟨200, 0⟩ })] ≠ []) :=
  ⟨mem_detectAtRisk store updates, by decide, by decide⟩

/-- Counterexample to claim C5 as stated: with a due date at the very start
of calendar day 200 and a proposed mean completion later on the *same
calendar day* (time of day 5), the detector does emit an `at_risk`
diagnostic, because the code compares instants with `After`, not calendar
dates. -/
theorem C5_same_calendar_day_is_flagged :
    (DetectAtRiskIssues
        [{ owner := "o", repo := "r", issueNum := 9, expectedCompletion := ⟨200, 5⟩ }]
        [("github.com/o/r/issues/9",
          { owner := "o", repo := "r", issueNum := 9, dueDate := some ⟨200, 0⟩ })]).length = 1
    ∧ (⟨200, 5⟩ : Time).day = (⟨200, 0⟩ : Time).day := by
  constructor
  · rfl
  · rfl

/-! ## Claim C7: the cycle extractor -/

/-- Distinct `(reference key, reason)` pairs. -/
def DistinctRefReason (a b : SchedulingIssue) : Prop :=
  a.issueRef ≠ b.issueRef ∨ a.reason ≠ b.reason

theorem extractCycleAux_mem (store : Store) :
    ∀ (entries : List ScheduledEntry) (acc : List SchedulingIssue) (hs : List String)
      (si : SchedulingIssue), si ∈ extractCycleAux store entries acc hs →
      si ∈ acc ∨
        (si.reason = "cycle" ∧ si.issueRef ∉ hs ∧
          ∃ e ∈ entries, e.isPackage = false ∧ e.cycle ≠ [] ∧ si.details = e.cycle ∧
            ∃ p ∈ store, p.1 = si.issueRef ∧ taskIDOf p.2 = e.id) := by
  intro entries
  induction entries with
  | nil => intro acc hs si h; exact Or.inl h
  | cons e rest ih =>
    intro acc hs si h
    rw [extractCycleAux] at h
    by_cases hskip : (e.isPackage || e.cycle.isEmpty) = true
    · rw [if_pos hskip] at h
      rcases ih acc hs si h with h1 | ⟨h1, h2, e', he', h3⟩
      · exact Or.inl h1
      · exact Or.inr ⟨h1, h2, e', List.mem_cons_of_mem e he', h3⟩
    · rw [if_neg hskip] at h
      simp only [Bool.or_eq_true, not_or, Bool.not_eq_true] at hskip
      cases hfind : findCycleTarget store hs e.id with
      | none =>
        rw [hfind] at h
        rcases ih acc hs si h with h1 | ⟨h1, h2, e', he', h3⟩
        · exact Or.inl h1
        · exact Or.inr ⟨h1, h2, e', List.mem_cons_of_mem e he', h3⟩
      | some p =>
        rw [hfind] at h
        have hpred := List.find?_some hfind
        have hpmem := List.mem_of_find?_eq_some hfind
        simp only [Bool.and_eq_true, beq_iff_eq, Bool.not_eq_true'] at hpred
        have hp1 : p.1 ∉ hs := by
          intro hmem
          have hany : (hs.any fun x => p.1 == x) = true :=
            List.any_eq_true.mpr ⟨p.1, hmem, by simp⟩
          rw [List.contains_eq_any_beq] at hpred
          rw [hany] at hpred
          exact absurd hpred.2 (by simp)
        rcases ih (acc ++ [cycleIssue p.1 p.2 e.cycle]) (p.1 :: hs) si h with h1 | ⟨h1, h2, e', he', h3⟩
        · rcases List.mem_append.mp h1 with h1 | h1
          · exact Or.inl h1
          · have hsi : si = cycleIssue p.1 p.2 e.cycle := by simpa using h1
            refine Or.inr ⟨by rw [hsi]; rfl, by rw [hsi]; exact hp1, e, List.mem_cons_self e rest,
              ?_, ?_, by rw [hsi]; rfl, p, hpmem, by rw [hsi]; rfl, hpred.1⟩
            · simpa using hskip.1
            · simpa [List.isEmpty_iff] using hskip.2
        · refine Or.inr ⟨h1, fun hmem => h2 (List.mem_cons_of_mem _ hmem), e',
            List.mem_cons_of_mem e he', h3⟩

theorem extractCycleAux_pairwise (store : Store) :
    ∀ (entries : List ScheduledEntry) (acc : List SchedulingIssue) (hs : List String),
      acc.Pairwise DistinctRefReason → (∀ a ∈ acc, a.issueRef ∈ hs) →
      (extractCycleAux store entries acc hs).Pairwise DistinctRefReason := by
  intro entries
  induction entries with
  | nil => intro acc hs hdist _; exact hdist
  | cons e rest ih =>
    intro acc hs hdist hinv
    rw [extractCycleAux]
    by_cases hskip : (e.isPackage || e.cycle.isEmpty) = true
    · rw [if_pos hskip]; exact ih acc hs hdist hinv
    · rw [if_neg hskip]
      cases hfind : findCycleTarget store hs e.id with
      | none => exact ih acc hs hdist hinv
      | some p =>
        have hpred := List.find?_some hfind
        simp only [Bool.and_eq_true, beq_iff_eq, Bool.not_eq_true'] at hpred
        have hp1 : p.1 ∉ hs := by
          intro hmem
          have hany : (hs.any fun x => p.1 == x) = true :=
            List.any_eq_true.mpr ⟨p.1, hmem, by simp⟩
          rw [List.contains_eq_any_beq] at hpred
          rw [hany] at hpred
          exact absurd hpred.2 (by simp)
        refine ih _ _ ?_ ?_
        · rw [List.pairwise_append]
          refine ⟨hdist, List.pairwise_singleton _ _, ?_⟩
          intro a ha b hb
          have hb' : b = cycleIssue p.1 p.2 e.cycle := by simpa using hb
          refine Or.inl ?_
          rw [hb']
          intro heq
          have ha' : a.issueRef = p.1 := heq
          exact hp1 (ha' ▸ hinv a ha)
        · intro a ha
          rcases List.mem_append.mp ha with ha | ha
          · exact List.mem_cons_of_mem _ (hinv a ha)
          · have : a = cycleIssue p.1 p.2 e.cycle := by simpa using ha
            rw [this]
            exact List.mem_cons_self _ _

/-- Claim C7: every diagnostic in the cycle extractor's output is either an
input diagnostic or a `cycle` diagnostic for a scheduler entry with a
non-empty cycle path whose work item held no diagnostic of any reason on
input; and if the input carries at most one diagnostic per
`(reference key, reason)` pair, so does the output. -/
theorem C7_cycle_dedup (store : Store) (entries : ScheduledEntries)
    (existing : List SchedulingIssue)
    (hdist : existing.Pairwise DistinctRefReason) :
    (∀ si ∈ ExtractCycleIssues entries store existing,
      si ∈ existing ∨
        (si.reason = "cycle"
          ∧ si.issueRef ∉ existing.map (fun a => a.issueRef)
          ∧ ∃ e ∈ entries.entries, e.isPackage = false ∧ e.cycle ≠ [] ∧ si.details = e.cycle
            ∧ ∃ p ∈ store, p.1 = si.issueRef ∧ taskIDOf p.2 = e.id))
    ∧ (ExtractCycleIssues entries store existing).Pairwise DistinctRefReason := by
  constructor
  · intro si h
    exact extractCycleAux_mem store entries.entries existing _ si h
  · exact extractCycleAux_pairwise store entries.entries existing _ hdist
      (fun a ha => List.mem_map.mpr ⟨a, ha, rfl⟩)

/-- The concrete inputs for the C7 witness. -/
def c7Existing : List SchedulingIssue :=
  [{ issueRef := "github.com/o/r/issues/1"
     issueNum := 1
     owner := "o"
     repo := "r"
     reason := "missing_dependency"
     details := ["o/r#2"] }]

def c7Store : Store :=
  [("github.com/o/r/issues/1", { owner := "o", repo := "r", issueNum := 1 })]

def c7Entries : ScheduledEntries :=
  ⟨[{ id := "o/r#1", cycle := ["o/r#1", "o/r#1"] }]⟩

/-- Witness for C7: a work item already carrying a `missing_dependency`
diagnostic that the scheduler reports in a cycle receives no second
diagnostic and the distinctness invariant is preserved. -/
theorem C7_cycle_dedup_witness :
    c7Existing.Pairwise DistinctRefReason
    ∧ ((∀ si ∈ ExtractCycleIssues c7Entries c7Store c7Existing,
        si ∈ c7Existing ∨
          (si.reason = "cycle"
            ∧ si.issueRef ∉ c7Existing.map (fun a => a.issueRef)
            ∧ ∃ e ∈ c7Entries.entries, e.isPackage = false ∧ e.cycle ≠ [] ∧ si.details = e.cycle
              ∧ ∃ p ∈ c7Store, p.1 = si.issueRef ∧ taskIDOf p.2 = e.id))
      ∧ (ExtractCycleIssues c7Entries c7Store c7Existing).Pairwise DistinctRefReason) :=
  ⟨List.pairwise_singleton _ _,
    C7_cycle_dedup c7Store c7Entries c7Existing (List.pairwise_singleton _ _)⟩

/-! ## Infrastructure for the diff-engine claims (C1, C2, C3, C8)

Decision predicates mirroring the guards of `PrepareUpdates`, and
characterizations of what each pass contributes for one work item. -/

/-- Pass 1's on-hold test. -/
def isOnHoldB (w : IssueWithProject) : Bool := w.schedulingStatus == "On Hold"

/-- Pass 1's closed test. -/
def isClosedB (w : IssueWithProject) : Bool := eqFold w.state "closed"

/-- Does Pass 1 mark this item processed? -/
def marks1 (w : IssueWithProject) : Bool :=
  w.project.isSome && (isOnHoldB w || isClosedB w)

/-- Does Pass 1 emit a clear for this item? -/
def emits1 (w : IssueWithProject) : Bool :=
  marks1 w && !(isOnHoldB w && !w.hasSchedulingDates)
    && !(isClosedB w && !w.hasSchedulingDates
          && w.lowEstimate.isNone && w.highEstimate.isNone)

/-- The clear reason Pass 1 records. -/
def reason1 (w : IssueWithProject) : String :=
  if isClosedB w then "closed" else "on hold"

theorem pass1Step_fst (w : IssueWithProject) :
    (pass1Step w).1 = if emits1 w then some (clearUpdate w (reason1 w)) else none := by
  unfold pass1Step emits1 marks1 reason1 isOnHoldB isClosedB
  cases hp : w.project with
  | none => simp
  | some pr =>
    cases hlo : w.lowEstimate <;> cases hhi : w.highEstimate <;>
      cases hd : w.hasSchedulingDates <;>
        by_cases h1 : (w.schedulingStatus == "On Hold") = true <;>
          by_cases h2 : eqFold w.state "closed" = true <;>
            simp_all

theorem pass1Step_snd (w : IssueWithProject) :
    (pass1Step w).2 = if marks1 w then some (taskIDOf w) else none := by
  unfold pass1Step marks1 isOnHoldB isClosedB
  cases hp : w.project with
  | none => simp
  | some pr =>
    cases hlo : w.lowEstimate <;> cases hhi : w.highEstimate <;>
      cases hd : w.hasSchedulingDates <;>
        by_cases h1 : (w.schedulingStatus == "On Hold") = true <;>
          by_cases h2 : eqFold w.state "closed" = true <;>
            simp_all

theorem prepPass1_fst (l : Store) :
    (prepPass1 l).1 = l.filterMap (fun p => (pass1Step p.2).1) := by
  induction l with
  | nil => rfl
  | cons p rest ih =>
    rw [List.filterMap_cons]
    cases h : (pass1Step p.2).1 with
    | none => simpa [prepPass1, h] using ih
    | some u => simpa [prepPass1, h] using ih

theorem prepPass1_snd (l : Store) :
    (prepPass1 l).2 = l.filterMap (fun p => (pass1Step p.2).2) := by
  induction l with
  | nil => rfl
  | cons p rest ih =>
    rw [List.filterMap_cons]
    cases h : (pass1Step p.2).2 with
    | none => simpa [prepPass1, h] using ih
    | some u => simpa [prepPass1, h] using ih

/-- Emissions carry the triple of the item they were built from. -/
theorem tripleMatch_clearUpdate (w q : IssueWithProject) (r : String) :
    tripleMatch w (clearUpdate q r) = true
      ↔ q.owner = w.owner ∧ q.repo = w.repo ∧ q.issueNum = w.issueNum := by
  simp [tripleMatch, clearUpdate, and_assoc]

theorem tripleMatch_setUpdate (w q : IssueWithProject) (bar : GanttBar) :
    tripleMatch w (setUpdate q bar) = true
      ↔ q.owner = w.owner ∧ q.repo = w.repo ∧ q.issueNum = w.issueNum := by
  simp [tripleMatch, setUpdate, and_assoc]

/-- The task id is a function of the triple. -/
theorem taskIDOf_congr {w q : IssueWithProject}
    (h1 : q.owner = w.owner) (h2 : q.repo = w.repo) (h3 : q.issueNum = w.issueNum) :
    taskIDOf q = taskIDOf w := by
  unfold taskIDOf
  rw [h1, h2, h3]

theorem tripleMatch_clearUpdate_self (w : IssueWithProject) (r : String) :
    tripleMatch w (clearUpdate w r) = true :=
  (tripleMatch_clearUpdate w w r).mpr ⟨rfl, rfl, rfl⟩

theorem tripleMatch_setUpdate_self (w : IssueWithProject) (bar : GanttBar) :
    tripleMatch w (setUpdate w bar) = true :=
  (tripleMatch_setUpdate w w bar).mpr ⟨rfl, rfl, rfl⟩

/-! Field preservation of `applyUpdate` and `applyAll`. -/

theorem applyUpdate_skeleton (w : IssueWithProject) (u : DateUpdate) :
    (applyUpdate w u).owner = w.owner ∧ (applyUpdate w u).repo = w.repo
    ∧ (applyUpdate w u).issueNum = w.issueNum ∧ (applyUpdate w u).state = w.state
    ∧ (applyUpdate w u).schedulingStatus = w.schedulingStatus
    ∧ (applyUpdate w u).project = w.project
    ∧ (applyUpdate w u).title = w.title := by
  unfold applyUpdate
  by_cases h : u.clearDates = true <;> simp [h]

theorem applyAll_skeleton (us : List DateUpdate) (w : IssueWithProject) :
    (applyAll w us).owner = w.owner ∧ (applyAll w us).repo = w.repo
    ∧ (applyAll w us).issueNum = w.issueNum ∧ (applyAll w us).state = w.state
    ∧ (applyAll w us).schedulingStatus = w.schedulingStatus
    ∧ (applyAll w us).project = w.project
    ∧ (applyAll w us).title = w.title := by
  induction us generalizing w with
  | nil => exact ⟨rfl, rfl, rfl, rfl, rfl, rfl, rfl⟩
  | cons u rest ih =>
    have step : applyAll w (u :: rest)
        = applyAll (if tripleMatch w u then applyUpdate w u else w) rest := rfl
    rw [step]
    by_cases h : tripleMatch w u = true
    · rw [if_pos h]
      obtain ⟨a1, a2, a3, a4, a5, a6, a7⟩ := applyUpdate_skeleton w u
      obtain ⟨b1, b2, b3, b4, b5, b6, b7⟩ := ih (applyUpdate w u)
      exact ⟨b1.trans a1, b2.trans a2, b3.trans a3, b4.trans a4, b5.trans a5,
        b6.trans a6, b7.trans a7⟩
    · rw [if_neg h]
      exact ih w

theorem tripleMatch_applyUpdate (w : IssueWithProject) (u u' : DateUpdate) :
    tripleMatch (applyUpdate w u) u' = tripleMatch w u' := by
  have h := applyUpdate_skeleton w u
  unfold tripleMatch
  rw [h.1, h.2.1, h.2.2.1]

theorem applyAll_eq_filter (us : List DateUpdate) (w : IssueWithProject) :
    applyAll w us = applyAll w (us.filter (tripleMatch w)) := by
  induction us generalizing w with
  | nil => rfl
  | cons u rest ih =>
    have step : ∀ (v : IssueWithProject) (l : List DateUpdate), applyAll v (u :: l)
        = applyAll (if tripleMatch v u then applyUpdate v u else v) l := fun _ _ => rfl
    by_cases h : tripleMatch w u = true
    · rw [List.filter_cons_of_pos h, step, step, if_pos h]
      have hfc : rest.filter (tripleMatch w) = rest.filter (tripleMatch (applyUpdate w u)) := by
        apply List.filter_congr
        intro x _
        exact (tripleMatch_applyUpdate w u x).symm
      rw [ih (applyUpdate w u), hfc]
    · rw [List.filter_cons_of_neg (by simpa using h), step, if_neg h]
      exact ih w

theorem applyAll_nil (w : IssueWithProject) : applyAll w [] = w := rfl

theorem applyAll_single (w : IssueWithProject) (u : DateUpdate)
    (h : tripleMatch w u = true) : applyAll w [u] = applyUpdate w u := by
  show (if tripleMatch w u then applyUpdate w u else w) = _
  rw [if_pos h]

/-- No entry of `l` shares `w`'s task id. -/
def tidAvoid (w : IssueWithProject) (l : Store) : Prop :=
  ∀ p ∈ l, taskIDOf p.2 ≠ taskIDOf w

theorem pass1_emission_taskID {q w : IssueWithProject} {u : DateUpdate}
    (hq : (pass1Step q).1 = some u) (hm : tripleMatch w u = true) :
    taskIDOf q = taskIDOf w := by
  rw [pass1Step_fst] at hq
  by_cases he : emits1 q = true
  · rw [if_pos he] at hq
    cases hq
    obtain ⟨h1, h2, h3⟩ := (tripleMatch_clearUpdate w q (reason1 q)).mp hm
    exact taskIDOf_congr h1 h2 h3
  · rw [if_neg he] at hq
    cases hq

theorem filter_pass1_avoid {w : IssueWithProject} {l : Store} (h : tidAvoid w l) :
    ((prepPass1 l).1).filter (tripleMatch w) = [] := by
  rw [prepPass1_fst, List.filter_eq_nil_iff]
  intro u hu
  obtain ⟨p, hp, hpu⟩ := List.mem_filterMap.mp hu
  intro hm
  exact h p hp (pass1_emission_taskID hpu hm)

theorem marks1_not_mem_avoid {w : IssueWithProject} {l : Store} (h : tidAvoid w l) :
    taskIDOf w ∉ (prepPass1 l).2 := by
  rw [prepPass1_snd]
  intro hmem
  obtain ⟨p, hp, hpu⟩ := List.mem_filterMap.mp hmem
  rw [pass1Step_snd] at hpu
  by_cases hm : marks1 p.2 = true
  · rw [if_pos hm] at hpu
    exact h p hp (Option.some_injective _ hpu)
  · rw [if_neg hm] at hpu
    cases hpu

theorem mem_prepPass1_snd_self {k : String} {w : IssueWithProject} {l : Store}
    (hmem : (k, w) ∈ l) (hm : marks1 w = true) : taskIDOf w ∈ (prepPass1 l).2 := by
  rw [prepPass1_snd]
  exact List.mem_filterMap.mpr ⟨(k, w), hmem, by rw [pass1Step_snd, if_pos hm]⟩

/-! Pass 2 bookkeeping. -/

theorem prepPass2_snd_mono (u : String → Bool) :
    ∀ (l : Store) (ps : List String) (x : String),
      x ∈ ps → x ∈ (prepPass2 u l ps).2 := by
  intro l
  induction l with
  | nil => intro ps x hx; exact hx
  | cons p rest ih =>
    intro ps x hx
    rw [prepPass2]
    cases hp : p.2.project with
    | none => exact ih ps x hx
    | some pr =>
      dsimp only
      by_cases hc : ps.contains (taskIDOf p.2) = true
      · rw [if_pos hc]; exact ih ps x hx
      · rw [if_neg hc]
        by_cases hu : (u p.1 && p.2.hasSchedulingDates) = true
        · rw [if_pos hu]
          exact ih (taskIDOf p.2 :: ps) x (List.mem_cons_of_mem _ hx)
        · rw [if_neg hu]; exact ih ps x hx

theorem prepPass2_snd_mem (u : String → Bool) :
    ∀ (l : Store) (ps : List String) (x : String),
      x ∈ (prepPass2 u l ps).2 → x ∈ ps ∨ ∃ p ∈ l, taskIDOf p.2 = x := by
  intro l
  induction l with
  | nil => intro ps x hx; exact Or.inl hx
  | cons p rest ih =>
    intro ps x hx
    rw [prepPass2] at hx
    cases hp : p.2.project with
    | none =>
      rw [hp] at hx
      rcases ih ps x hx with h | ⟨q, hq, hq2⟩
      · exact Or.inl h
      · exact Or.inr ⟨q, List.mem_cons_of_mem _ hq, hq2⟩
    | some pr =>
      rw [hp] at hx
      dsimp only at hx
      by_cases hc : ps.contains (taskIDOf p.2) = true
      · rw [if_pos hc] at hx
        rcases ih ps x hx with h | ⟨q, hq, hq2⟩
        · exact Or.inl h
        · exact Or.inr ⟨q, List.mem_cons_of_mem _ hq, hq2⟩
      · rw [if_neg hc] at hx
        by_cases hu : (u p.1 && p.2.hasSchedulingDates) = true
        · rw [if_pos hu] at hx
          rcases ih (taskIDOf p.2 :: ps) x hx with h | ⟨q, hq, hq2⟩
          · rcases List.mem_cons.mp h with h | h
            · exact Or.inr ⟨p, List.mem_cons_self _ _, h.symm⟩
            · exact Or.inl h
          · exact Or.inr ⟨q, List.mem_cons_of_mem _ hq, hq2⟩
        · rw [if_neg hu] at hx
          rcases ih ps x hx with h | ⟨q, hq, hq2⟩
          · exact Or.inl h
          · exact Or.inr ⟨q, List.mem_cons_of_mem _ hq, hq2⟩

theorem prepPass2_snd_avoid {w : IssueWithProject} {l : Store} (u : String → Bool)
    (h : tidAvoid w l) (ps : List String) :
    taskIDOf w ∈ (prepPass2 u l ps).2 ↔ taskIDOf w ∈ ps := by
  constructor
  · intro hx
    rcases prepPass2_snd_mem u l ps _ hx with hx | ⟨q, hq, hq2⟩
    · exact hx
    · exact absurd hq2 (h q hq)
  · exact prepPass2_snd_mono u l ps _

theorem filter_pass2_avoid {w : IssueWithProject} (u : String → Bool) :
    ∀ {l : Store}, tidAvoid w l → ∀ (ps : List String),
      ((prepPass2 u l ps).1).filter (tripleMatch w) = [] := by
  intro l
  induction l with
  | nil => intro _ ps; rfl
  | cons p rest ih =>
    intro h ps
    have hrest : tidAvoid w rest := fun q hq => h q (List.mem_cons_of_mem _ hq)
    have hhead : taskIDOf p.2 ≠ taskIDOf w := h p (List.mem_cons_self _ _)
    rw [prepPass2]
    cases hp : p.2.project with
    | none => exact ih hrest ps
    | some pr =>
      dsimp only
      by_cases hc : ps.contains (taskIDOf p.2) = true
      · rw [if_pos hc]; exact ih hrest ps
      · rw [if_neg hc]
        by_cases hu : (u p.1 && p.2.hasSchedulingDates) = true
        · rw [if_pos hu]
          dsimp only
          rw [List.filter_cons]
          have : tripleMatch w (clearUpdate p.2 "unschedulable") = false := by
            by_contra hb
            rw [Bool.not_eq_false] at hb
            obtain ⟨h1, h2, h3⟩ := (tripleMatch_clearUpdate w p.2 "unschedulable").mp hb
            exact hhead (taskIDOf_congr h1 h2 h3)
          rw [this]
          simp only [Bool.false_eq_true, if_false]
          exact ih hrest (taskIDOf p.2 :: ps)
        · rw [if_neg hu]; exact ih hrest ps

theorem prepPass2_append (u : String → Bool) :
    ∀ (l₁ l₂ : Store) (ps : List String),
      prepPass2 u (l₁ ++ l₂) ps
        = ((prepPass2 u l₁ ps).1 ++ (prepPass2 u l₂ (prepPass2 u l₁ ps).2).1,
           (prepPass2 u l₂ (prepPass2 u l₁ ps).2).2) := by
  intro l₁
  induction l₁ with
  | nil => intro l₂ ps; rfl
  | cons p rest ih =>
    intro l₂ ps
    rw [List.cons_append, prepPass2, prepPass2]
    cases hp : p.2.project with
    | none => exact ih l₂ ps
    | some pr =>
      dsimp only
      by_cases hc : ps.contains (taskIDOf p.2) = true
      · rw [if_pos hc, if_pos hc]; exact ih l₂ ps
      · rw [if_neg hc, if_neg hc]
        by_cases hu : (u p.1 && p.2.hasSchedulingDates) = true
        · rw [if_pos hu, if_pos hu]
          dsimp only
          rw [ih l₂ (taskIDOf p.2 :: ps)]
          rfl
        · rw [if_neg hu, if_neg hu]; exact ih l₂ ps

/-! Pass 3 bookkeeping. -/

/-- The first non-package bar carrying this task id. -/
def findBar (bars : List GanttBar) (tid : String) : Option GanttBar :=
  bars.find? (fun b => !b.isPackage && b.id == tid)

theorem lookupTask_taskID {store : Store} {id : String} {q : IssueWithProject}
    (h : lookupTask store id = some q) : taskIDOf q = id := by
  unfold lookupTask at h
  cases hf : store.find? (fun p => taskIDOf p.2 == id) with
  | none => rw [hf] at h; cases h
  | some p =>
    rw [hf] at h
    cases h
    have hp := List.find?_some hf
    simpa using hp

theorem lookupTask_decomp {l₁ l₂ : Store} {k : String} {w : IssueWithProject}
    (hne₁ : tidAvoid w l₁) :
    lookupTask (l₁ ++ (k, w) :: l₂) (taskIDOf w) = some w := by
  unfold lookupTask
  have h₁ : l₁.find? (fun p => taskIDOf p.2 == taskIDOf w) = none :=
    List.find?_eq_none.mpr (fun p hp => by simpa using hne₁ p hp)
  rw [List.find?_append, h₁, Option.none_or, List.find?_cons_of_pos _ (by simp)]
  rfl

theorem filter_pass3_nobar {w : IssueWithProject} (store : Store) (u : String → Bool)
    (ps : List String) :
    ∀ {bars : List GanttBar},
      (∀ b ∈ bars, b.isPackage = false → b.id ≠ taskIDOf w) →
      (prepPass3 store u ps bars).filter (tripleMatch w) = [] := by
  intro bars
  induction bars with
  | nil => intro _; rfl
  | cons b rest ih =>
    intro h
    have hrest := fun b' hb' => h b' (List.mem_cons_of_mem _ hb')
    rw [prepPass3]
    by_cases hpkg : b.isPackage = true
    · rw [if_pos hpkg]; exact ih hrest
    · rw [if_neg hpkg]
      have hid : b.id ≠ taskIDOf w :=
        h b (List.mem_cons_self _ _) (Bool.not_eq_true _ ▸ hpkg)
      cases hl : lookupTask store b.id with
      | none => exact ih hrest
      | some q =>
        dsimp only
        cases hq : q.project with
        | none => exact ih hrest
        | some pr =>
          dsimp only
          by_cases hc : ps.contains b.id = true
          · rw [if_pos hc]; exact ih hrest
          · rw [if_neg hc]
            by_cases hu : u (refOf q) = true
            · rw [if_pos hu]; exact ih hrest
            · rw [if_neg hu]
              by_cases hs : same3 q b = true
              · rw [if_pos hs]; exact ih hrest
              · rw [if_neg hs]
                rw [List.filter_cons]
                have hmatch : tripleMatch w (setUpdate q b) = false := by
                  by_contra hb2
                  rw [Bool.not_eq_false] at hb2
                  obtain ⟨h1, h2, h3⟩ := (tripleMatch_setUpdate w q b).mp hb2
                  exact hid ((lookupTask_taskID hl).symm.trans (taskIDOf_congr h1 h2 h3))
                rw [hmatch]
                simp only [Bool.false_eq_true, if_false]
                exact ih hrest

theorem filter_pass3_main {l₁ l₂ : Store} {k : String} {w : IssueWithProject}
    (u : String → Bool) (ps : List String) (hne₁ : tidAvoid w l₁) :
    ∀ {bars : List GanttBar},
      ((bars.filter (fun b => !b.isPackage)).map (fun b => b.id)).Nodup →
      (prepPass3 (l₁ ++ (k, w) :: l₂) u ps bars).filter (tripleMatch w)
        = match findBar bars (taskIDOf w) with
          | none => []
          | some bar =>
            if w.project.isSome && !(ps.contains (taskIDOf w)) && !(u (refOf w))
                && !(same3 w bar)
            then [setUpdate w bar] else [] := by
  intro bars
  induction bars with
  | nil => intro _; rfl
  | cons b rest ih =>
    intro H3
    rw [prepPass3]
    by_cases hpkg : b.isPackage = true
    · have hfb : findBar (b :: rest) (taskIDOf w) = findBar rest (taskIDOf w) := by
        unfold findBar
        rw [List.find?_cons_of_neg _ (by simp [hpkg])]
      rw [if_pos hpkg, hfb]
      have H3' : ((rest.filter (fun b => !b.isPackage)).map (fun b => b.id)).Nodup := by
        rwa [List.filter_cons_of_neg (by simp [hpkg])] at H3
      exact ih H3'
    · rw [if_neg hpkg]
      have hpkgf : b.isPackage = false := Bool.not_eq_true _ ▸ hpkg
      have H3' : ((rest.filter (fun b => !b.isPackage)).map (fun b => b.id)).Nodup := by
        rw [List.filter_cons_of_pos (by simp [hpkgf])] at H3
        exact (List.nodup_cons.mp (by simpa using H3)).2
      by_cases hid : b.id = taskIDOf w
      · have hfb : findBar (b :: rest) (taskIDOf w) = some b := by
          unfold findBar
          rw [List.find?_cons_of_pos _ (by simp [hpkgf, hid])]
        rw [hfb]
        have hnotail : ∀ b' ∈ rest, b'.isPackage = false → b'.id ≠ taskIDOf w := by
          intro b' hb' hbp' heq
          rw [List.filter_cons_of_pos (by simp [hpkgf])] at H3
          have : b.id ∉ (rest.filter (fun x => !x.isPackage)).map (fun x => x.id) :=
            (List.nodup_cons.mp (by simpa using H3)).1
          exact this (List.mem_map.mpr ⟨b', List.mem_filter.mpr ⟨hb', by simp [hbp']⟩,
            heq.trans hid.symm⟩)
        have htail0 : (prepPass3 (l₁ ++ (k, w) :: l₂) u ps rest).filter (tripleMatch w) = [] :=
          filter_pass3_nobar _ u ps hnotail
        rw [hid, lookupTask_decomp hne₁]
        dsimp only
        cases hq : w.project with
        | none => rw [htail0]; simp [hq]
        | some pr =>
          dsimp only
          by_cases hc : ps.contains (taskIDOf w) = true
          · rw [if_pos hc, htail0, hc]
            simp
          · rw [if_neg hc]
            rw [Bool.not_eq_true] at hc
            by_cases hu : u (refOf w) = true
            · rw [if_pos hu, htail0, hu]
              simp
            · rw [if_neg hu]
              rw [Bool.not_eq_true] at hu
              by_cases hs : same3 w b = true
              · rw [if_pos hs, htail0, hs]
                simp
              · rw [if_neg hs]
                rw [Bool.not_eq_true] at hs
                rw [List.filter_cons, tripleMatch_setUpdate_self]
                simp only [if_true]
                rw [htail0, hc, hu, hs]
                simp
      · have hfb : findBar (b :: rest) (taskIDOf w) = findBar rest (taskIDOf w) := by
          unfold findBar
          rw [List.find?_cons_of_neg _ (by simp [hid])]
        rw [hfb]
        cases hl : lookupTask (l₁ ++ (k, w) :: l₂) b.id with
        | none => exact ih H3'
        | some q =>
          dsimp only
          cases hq : q.project with
          | none => exact ih H3'
          | some pr =>
            dsimp only
            by_cases hc : ps.contains b.id = true
            · rw [if_pos hc]; exact ih H3'
            · rw [if_neg hc]
              by_cases hu : u (refOf q) = true
              · rw [if_pos hu]; exact ih H3'
              · rw [if_neg hu]
                by_cases hs : same3 q b = true
                · rw [if_pos hs]; exact ih H3'
                · rw [if_neg hs]
                  rw [List.filter_cons]
                  have hmatch : tripleMatch w (setUpdate q b) = false := by
                    by_contra hb2
                    rw [Bool.not_eq_false] at hb2
                    obtain ⟨h1, h2, h3⟩ := (tripleMatch_setUpdate w q b).mp hb2
                    exact hid (((lookupTask_taskID hl).symm.trans
                      (taskIDOf_congr h1 h2 h3)))
                  rw [hmatch]
                  simp only [Bool.false_eq_true, if_false]
                  exact ih H3'

theorem filter_pass1_main {l₁ l₂ : Store} {k : String} {w : IssueWithProject}
    (hne₁ : tidAvoid w l₁) (hne₂ : tidAvoid w l₂) :
    ((prepPass1 (l₁ ++ (k, w) :: l₂)).1).filter (tripleMatch w)
      = if emits1 w then [clearUpdate w (reason1 w)] else [] := by
  have h₁ : ((prepPass1 l₁).1).filter (tripleMatch w) = [] := filter_pass1_avoid hne₁
  have h₂ : ((prepPass1 l₂).1).filter (tripleMatch w) = [] := filter_pass1_avoid hne₂
  rw [prepPass1_fst] at h₁ h₂ ⊢
  rw [List.filterMap_append, List.filterMap_cons]
  dsimp only
  rw [pass1Step_fst]
  by_cases he : emits1 w = true
  · rw [if_pos he, if_pos he, List.filter_append, h₁, List.filter_cons,
      tripleMatch_clearUpdate_self]
    simp only [if_true]
    rw [h₂]
    simp
  · rw [if_neg he, if_neg he, List.filter_append, h₁, h₂]
    simp

theorem mem_pass1_main {l₁ l₂ : Store} {k : String} {w : IssueWithProject}
    (hne₁ : tidAvoid w l₁) (hne₂ : tidAvoid w l₂) :
    taskIDOf w ∈ (prepPass1 (l₁ ++ (k, w) :: l₂)).2 ↔ marks1 w = true := by
  constructor
  · intro h
    rw [prepPass1_snd] at h
    obtain ⟨p, hp, hps⟩ := List.mem_filterMap.mp h
    rw [pass1Step_snd] at hps
    by_cases hm : marks1 p.2 = true
    · rw [if_pos hm] at hps
      have htid := Option.some_injective _ hps
      rcases List.mem_append.mp hp with hp | hp
      · exact absurd htid (hne₁ p hp)
      · rcases List.mem_cons.mp hp with hp | hp
        · rw [hp] at hm; exact hm
        · exact absurd htid (hne₂ p hp)
    · rw [if_neg hm] at hps
      cases hps
  · intro hm
    exact mem_prepPass1_snd_self (List.mem_append.mpr (Or.inr (List.mem_cons_self _ _))) hm

theorem pass2_cons_step {l₂ : Store} {k : String} {w : IssueWithProject} (u : String → Bool)
    (hne₂ : tidAvoid w l₂) (ps₁ : List String)
    (hps₁ : taskIDOf w ∈ ps₁ ↔ marks1 w = true) :
    ((prepPass2 u ((k, w) :: l₂) ps₁).1).filter (tripleMatch w)
        = (if marks1 w = false ∧ w.project.isSome = true ∧ (u k && w.hasSchedulingDates) = true
           then [clearUpdate w "unschedulable"] else [])
    ∧ (taskIDOf w ∈ (prepPass2 u ((k, w) :: l₂) ps₁).2
        ↔ (marks1 w = true ∨ (w.project.isSome = true ∧ (u k && w.hasSchedulingDates) = true))) := by
  rw [prepPass2]
  cases hq : w.project with
  | none =>
    dsimp only
    have hm : marks1 w = false := by
      unfold marks1
      rw [hq]
      rfl
    constructor
    · rw [filter_pass2_avoid u hne₂ ps₁]
      simp [hm]
    · rw [prepPass2_snd_avoid u hne₂ ps₁, hps₁]
      simp [hm, hq]
  | some pr =>
    dsimp only
    by_cases hc : ps₁.contains (taskIDOf w) = true
    · have hm : marks1 w = true := hps₁.mp (List.elem_iff.mp hc)
      rw [if_pos hc]
      constructor
      · rw [filter_pass2_avoid u hne₂ ps₁]
        simp [hm]
      · rw [prepPass2_snd_avoid u hne₂ ps₁, hps₁]
        simp [hm]
    · have hm : marks1 w = false := by
        cases hmm : marks1 w
        · rfl
        · exact absurd (List.elem_iff.mpr (hps₁.mpr hmm)) hc
      rw [if_neg hc]
      by_cases hu2 : (u k && w.hasSchedulingDates) = true
      · rw [if_pos hu2]
        dsimp only
        constructor
        · rw [List.filter_cons, tripleMatch_clearUpdate_self]
          simp only [if_true]
          rw [filter_pass2_avoid u hne₂ (taskIDOf w :: ps₁)]
          simp [hm, hq, hu2]
        · rw [prepPass2_snd_avoid u hne₂ (taskIDOf w :: ps₁)]
          simp [hq, hu2]
      · rw [if_neg hu2]
        constructor
        · rw [filter_pass2_avoid u hne₂ ps₁]
          simp [hu2]
        · rw [prepPass2_snd_avoid u hne₂ ps₁, hps₁]
          simp [hm, hu2]

theorem pass2_main {l₁ l₂ : Store} {k : String} {w : IssueWithProject} (u : String → Bool)
    (hne₁ : tidAvoid w l₁) (hne₂ : tidAvoid w l₂) (ps : List String)
    (hps : taskIDOf w ∈ ps ↔ marks1 w = true) :
    ((prepPass2 u (l₁ ++ (k, w) :: l₂) ps).1).filter (tripleMatch w)
        = (if marks1 w = false ∧ w.project.isSome = true ∧ (u k && w.hasSchedulingDates) = true
           then [clearUpdate w "unschedulable"] else [])
    ∧ (taskIDOf w ∈ (prepPass2 u (l₁ ++ (k, w) :: l₂) ps).2
        ↔ (marks1 w = true ∨ (w.project.isSome = true ∧ (u k && w.hasSchedulingDates) = true))) := by
  rw [prepPass2_append]
  have hps₁ : taskIDOf w ∈ (prepPass2 u l₁ ps).2 ↔ marks1 w = true :=
    (prepPass2_snd_avoid u hne₁ ps).trans hps
  obtain ⟨hf, hmem⟩ := pass2_cons_step u hne₂ (prepPass2 u l₁ ps).2 hps₁
  constructor
  · dsimp only
    rw [List.filter_append, filter_pass2_avoid u hne₁ ps, hf]
    simp
  · exact hmem

/-- The per-item decision of `PrepareUpdates`: what the run emits for one
store entry, assembled from the three passes' guards. -/
def itemUpdates (gantt : GanttData) (u : String → Bool) (k : String)
    (w : IssueWithProject) : List DateUpdate :=
  if emits1 w then [clearUpdate w (reason1 w)]
  else if marks1 w then []
  else if w.project.isSome && u k && w.hasSchedulingDates then [clearUpdate w "unschedulable"]
  else
    match findBar gantt.bars (taskIDOf w) with
    | none => []
    | some bar =>
      if w.project.isSome && !u (refOf w) && !same3 w bar then [setUpdate w bar] else []

theorem emits1_marks1 {w : IssueWithProject} (h : emits1 w = true) : marks1 w = true := by
  unfold emits1 at h
  exact ((Bool.and_eq_true .. ▸ ((Bool.and_eq_true .. ▸ h).1)).1)

/-- One work item's contribution to a `PrepareUpdates` run: with pairwise
distinct task ids in the store and pairwise distinct non-package bar ids,
the updates targeting the item are exactly `itemUpdates`. -/
theorem filter_PrepareUpdates_decomp (gantt : GanttData) (u : String → Bool)
    {l₁ l₂ : Store} {k : String} {w : IssueWithProject}
    (hne₁ : tidAvoid w l₁) (hne₂ : tidAvoid w l₂)
    (H3 : ((gantt.bars.filter (fun b => !b.isPackage)).map (fun b => b.id)).Nodup) :
    (PrepareUpdates gantt (l₁ ++ (k, w) :: l₂) u).filter (tripleMatch w)
      = itemUpdates gantt u k w := by
  unfold PrepareUpdates
  dsimp only
  rw [List.filter_append, List.filter_append]
  rw [filter_pass1_main hne₁ hne₂]
  obtain ⟨h2f, h2m⟩ := pass2_main u hne₁ hne₂ _ (mem_pass1_main hne₁ hne₂)
  rw [h2f]
  rw [filter_pass3_main u _ hne₁ H3]
  have hcont : ((prepPass2 u (l₁ ++ (k, w) :: l₂) (prepPass1 (l₁ ++ (k, w) :: l₂)).2).2).contains
      (taskIDOf w)
      = (marks1 w || (w.project.isSome && (u k && w.hasSchedulingDates))) := by
    by_cases hmem : taskIDOf w
        ∈ (prepPass2 u (l₁ ++ (k, w) :: l₂) (prepPass1 (l₁ ++ (k, w) :: l₂)).2).2
    · have hcc : ((prepPass2 u (l₁ ++ (k, w) :: l₂) (prepPass1 (l₁ ++ (k, w) :: l₂)).2).2).contains
          (taskIDOf w) = true := List.elem_iff.mpr hmem
      rw [hcc]
      rcases h2m.mp hmem with h | ⟨h1, h2⟩
      · rw [h]; rfl
      · rw [h1, h2]
        simp
    · have : ((prepPass2 u (l₁ ++ (k, w) :: l₂) (prepPass1 (l₁ ++ (k, w) :: l₂)).2).2).contains
          (taskIDOf w) = false := by
        cases hcc : ((prepPass2 u (l₁ ++ (k, w) :: l₂) (prepPass1 (l₁ ++ (k, w) :: l₂)).2).2).contains
            (taskIDOf w)
        · rfl
        · exact absurd (List.elem_iff.mp hcc) hmem
      rw [this]
      have hm : marks1 w = false := by
        cases hmm : marks1 w
        · rfl
        · exact absurd (h2m.mpr (Or.inl hmm)) hmem
      have hc2 : ¬(w.project.isSome = true ∧ (u k && w.hasSchedulingDates) = true) :=
        fun hcc => hmem (h2m.mpr (Or.inr hcc))
      rw [hm]
      cases hq : w.project.isSome
      · rfl
      · cases huk : (u k && w.hasSchedulingDates)
        · rfl
        · exact absurd ⟨hq, huk⟩ hc2
  rw [hcont]
  unfold itemUpdates
  by_cases he : emits1 w = true
  · have hm := emits1_marks1 he
    have hno2 : ¬(marks1 w = false ∧ w.project.isSome = true
        ∧ (u k && w.hasSchedulingDates) = true) := by
      rw [hm]
      rintro ⟨h, -⟩
      cases h
    have hor : (marks1 w || (w.project.isSome && (u k && w.hasSchedulingDates))) = true := by
      rw [hm]
      rfl
    rw [if_pos he, if_neg hno2, hor]
    cases hfb : findBar gantt.bars (taskIDOf w) <;> simp [he]
  · by_cases hm : marks1 w = true
    · have hno2 : ¬(marks1 w = false ∧ w.project.isSome = true
          ∧ (u k && w.hasSchedulingDates) = true) := by
        rw [hm]
        rintro ⟨h, -⟩
        cases h
      have hor : (marks1 w || (w.project.isSome && (u k && w.hasSchedulingDates))) = true := by
        rw [hm]
        rfl
      rw [if_neg he, if_pos hm, if_neg hno2, hor]
      cases hfb : findBar gantt.bars (taskIDOf w) <;> simp [he, hm]
    · rw [Bool.not_eq_true] at hm
      by_cases hc2 : (w.project.isSome && u k && w.hasSchedulingDates) = true
      · have hc2' : w.project.isSome = true ∧ (u k && w.hasSchedulingDates) = true := by
          rw [Bool.and_assoc] at hc2
          exact ⟨(Bool.and_eq_true .. ▸ hc2).1, (Bool.and_eq_true .. ▸ hc2).2⟩
        have hyes2 : marks1 w = false ∧ w.project.isSome = true
            ∧ (u k && w.hasSchedulingDates) = true := ⟨hm, hc2'⟩
        have hor : (marks1 w || (w.project.isSome && (u k && w.hasSchedulingDates))) = true := by
          rw [hc2'.1, hc2'.2]
          simp
        have huk3 : u k = true ∧ w.hasSchedulingDates = true := Bool.and_eq_true .. ▸ hc2'.2
        have hmn : ¬(marks1 w = true) := by rw [hm]; exact Bool.false_ne_true
        rw [if_neg he, if_neg hmn, if_pos hc2, if_pos hyes2, hor]
        cases hfb : findBar gantt.bars (taskIDOf w) <;>
          simp [he, hm, hc2'.1, huk3.1, huk3.2]
      · have hc2' : ¬(w.project.isSome = true ∧ (u k && w.hasSchedulingDates) = true) := by
          rintro ⟨h1, h2⟩
          exact hc2 (by rw [Bool.and_assoc, h1, h2]; rfl)
        have hno2 : ¬(marks1 w = false ∧ w.project.isSome = true
            ∧ (u k && w.hasSchedulingDates) = true) := fun hx => hc2' hx.2
        have hor : (marks1 w || (w.project.isSome && (u k && w.hasSchedulingDates))) = false := by
          rw [hm]
          cases hq : w.project.isSome
          · rfl
          · cases huk : (u k && w.hasSchedulingDates)
            · rfl
            · exact absurd ⟨hq, huk⟩ hc2'
        have hc2p : ¬((w.project.isSome = true ∧ u k = true) ∧ w.hasSchedulingDates = true) := by
          rintro ⟨⟨a, b⟩, c⟩
          exact hc2 (by rw [a, b, c]; rfl)
        have hmn : ¬(marks1 w = true) := by rw [hm]; exact Bool.false_ne_true
        rw [if_neg he, if_neg hmn, if_neg hc2, if_neg hno2, hor]
        cases hfb : findBar gantt.bars (taskIDOf w) with
        | none => simp [he, hm, hc2p]
        | some bar => simp [he, hm, hc2p]

theorem decompose_store {store : Store} {k : String} {w : IssueWithProject}
    (H1 : (store.map (fun p => taskIDOf p.2)).Nodup) (hmem : (k, w) ∈ store) :
    ∃ l₁ l₂, store = l₁ ++ (k, w) :: l₂ ∧ tidAvoid w l₁ ∧ tidAvoid w l₂ := by
  obtain ⟨l₁, l₂, rfl⟩ := List.append_of_mem hmem
  rw [List.map_append, List.map_cons] at H1
  refine ⟨l₁, l₂, rfl, ?_, ?_⟩
  · have hdisj := (List.nodup_append.mp H1).2.2
    intro p hp heq
    exact hdisj (List.mem_map.mpr ⟨p, hp, heq⟩) (List.mem_cons_self _ _)
  · have h2 := (List.nodup_append.mp H1).2.1
    have hh := (List.nodup_cons.mp h2).1
    intro p hp heq
    exact hh (List.mem_map.mpr ⟨p, hp, heq⟩)

/-- The per-item characterization, phrased over a store with distinct task ids. -/
theorem item_filter (gantt : GanttData) (u : String → Bool) {store : Store}
    {k : String} {w : IssueWithProject}
    (H1 : (store.map (fun p => taskIDOf p.2)).Nodup)
    (H3 : ((gantt.bars.filter (fun b => !b.isPackage)).map (fun b => b.id)).Nodup)
    (hmem : (k, w) ∈ store) :
    (PrepareUpdates gantt store u).filter (tripleMatch w) = itemUpdates gantt u k w := by
  obtain ⟨l₁, l₂, rfl, hne₁, hne₂⟩ := decompose_store H1 hmem
  exact filter_PrepareUpdates_decomp gantt u hne₁ hne₂ H3

/-- What `itemUpdates` reduces to for a closed, project-linked item. -/
theorem itemUpdates_closed (gantt : GanttData) (u : String → Bool) (k : String)
    {w : IssueWithProject}
    (hclosed : eqFold w.state "closed" = true) (hproj : w.project.isSome = true) :
    itemUpdates gantt u k w
      = if w.hasSchedulingDates = true
            ∨ (¬(w.schedulingStatus = "On Hold")
                ∧ (w.lowEstimate ≠ none ∨ w.highEstimate ≠ none))
        then [clearUpdate w "closed"] else [] := by
  have hcb : isClosedB w = true := hclosed
  have hm : marks1 w = true := by
    unfold marks1
    rw [hproj, hcb]
    simp
  have hr : reason1 w = "closed" := by
    unfold reason1
    rw [hcb]
    rfl
  unfold itemUpdates
  rw [hr]
  by_cases hd : w.hasSchedulingDates = true
  · have he : emits1 w = true := by
      unfold emits1
      rw [hm, hd]
      simp
    rw [if_pos he, if_pos (Or.inl hd)]
  · rw [Bool.not_eq_true] at hd
    by_cases hh : w.schedulingStatus = "On Hold"
    · have hhb : isOnHoldB w = true := by
        unfold isOnHoldB
        rw [hh]
        rfl
      have he : emits1 w = false := by
        unfold emits1
        rw [hhb, hd]
        simp
      have hen : ¬(emits1 w = true) := by rw [he]; exact Bool.false_ne_true
      rw [if_neg hen, if_pos hm, if_neg ?hcond]
      case hcond =>
        rw [hd]
        rintro (h | ⟨h2, -⟩)
        · cases h
        · exact h2 hh
    · have hhb : isOnHoldB w = false := by
        unfold isOnHoldB
        cases hx : (w.schedulingStatus == "On Hold")
        · rfl
        · exact absurd (beq_iff_eq.mp hx) hh
      cases hlo : w.lowEstimate with
      | some q =>
        have he : emits1 w = true := by
          unfold emits1
          rw [hm, hhb, hlo, hd]
          simp
        rw [if_pos he, if_pos (Or.inr ⟨hh, Or.inl (by simp)⟩)]
      | none =>
        cases hhi : w.highEstimate with
        | some q =>
          have he : emits1 w = true := by
            unfold emits1
            rw [hm, hhb, hlo, hhi, hd]
            simp
          rw [if_pos he, if_pos (Or.inr ⟨hh, Or.inr (by simp)⟩)]
        | none =>
          have he : emits1 w = false := by
            unfold emits1
            rw [hcb, hlo, hhi, hd]
            simp
          have hen : ¬(emits1 w = true) := by rw [he]; exact Bool.false_ne_true
          rw [if_neg hen, if_pos hm, if_neg ?hcond]
          case hcond =>
            rw [hd]
            rintro (h | ⟨-, (h2 | h2)⟩)
            · cases h
            · exact h2 rfl
            · exact h2 rfl

/-! ## Claims C2, C3, C8 -/

/-- Claim C3 (corrected): for every closed WorkItem with a project linkage,
`PrepareUpdates` emits exactly one clear DateUpdate with reason `"closed"`
precisely when the item has any computed date set, or is not also on-hold and
has any estimate set; a closed item that is also on-hold with no computed
dates produces no write even when estimates are set, and a closed item with
nothing set produces no write; in every case the item is marked processed. -/
theorem C3_closed_clear (gantt : GanttData) (u : String → Bool)
    (store : Store) (k : String) (w : IssueWithProject)
    (H1 : (store.map (fun p => taskIDOf p.2)).Nodup)
    (H3 : ((gantt.bars.filter (fun b => !b.isPackage)).map (fun b => b.id)).Nodup)
    (hmem : (k, w) ∈ store)
    (hclosed : eqFold w.state "closed" = true)
    (hproj : w.project.isSome = true) :
    ((PrepareUpdates gantt store u).filter (tripleMatch w)
        = if w.hasSchedulingDates = true
              ∨ (¬(w.schedulingStatus = "On Hold")
                  ∧ (w.lowEstimate ≠ none ∨ w.highEstimate ≠ none))
          then [clearUpdate w "closed"] else [])
    ∧ taskIDOf w ∈ (prepPass1 store).2 := by
  constructor
  · rw [item_filter gantt u H1 H3 hmem, itemUpdates_closed gantt u k hclosed hproj]
  · have hcb : isClosedB w = true := hclosed
    have hm : marks1 w = true := by
      unfold marks1
      rw [hproj, hcb]
      simp
    exact mem_prepPass1_snd_self hmem hm

/-- Counterexample to claim C3 as stated: a closed work item that is also
on-hold, has an estimate set and no computed dates, produces no DateUpdate at
all — the on-hold skip of Pass 1 fires before the closed estimate check. -/
theorem C3_closed_onhold_estimates_skipped :
    PrepareUpdates ⟨[]⟩
      [("github.com/o/r/issues/5",
        { owner := "o", repo := "r", issueNum := 5, state := "closed",
          schedulingStatus := "On Hold", project := some "p", lowEstimate := some 2 })]
      (fun _ => false) = [] := by
  decide

/-- Concrete inputs for the C3 witness. -/
def c3Issue : IssueWithProject :=
  { owner := "o"
    repo := "r"
    issueNum := 4
    state := "closed"
    project := some "p"
    lowEstimate := some 2 }

def c3Store : Store := [("github.com/o/r/issues/4", c3Issue)]

/-- Witness for C3 at a concrete closed item with an estimate set. -/
theorem C3_closed_clear_witness :
    ((c3Store.map (fun p => taskIDOf p.2)).Nodup
      ∧ ((((⟨[]⟩ : GanttData).bars.filter (fun b => !b.isPackage)).map (fun b => b.id)).Nodup)
      ∧ ("github.com/o/r/issues/4", c3Issue) ∈ c3Store
      ∧ eqFold c3Issue.state "closed" = true
      ∧ c3Issue.project.isSome = true)
    ∧ (((PrepareUpdates ⟨[]⟩ c3Store (fun _ => false)).filter (tripleMatch c3Issue)
        = if c3Issue.hasSchedulingDates = true
              ∨ (¬(c3Issue.schedulingStatus = "On Hold")
                  ∧ (c3Issue.lowEstimate ≠ none ∨ c3Issue.highEstimate ≠ none))
          then [clearUpdate c3Issue "closed"] else [])
      ∧ taskIDOf c3Issue ∈ (prepPass1 c3Store).2) :=
  ⟨⟨by decide, by decide, by decide, by decide, by decide⟩,
    C3_closed_clear ⟨[]⟩ (fun _ => false) c3Store "github.com/o/r/issues/4" c3Issue
      (by decide) (by decide) (by decide) (by decide) (by decide)⟩

/-- Claim C2 (corrected): for a WorkItem that is both closed and flagged
unschedulable, at most one DateUpdate is produced; exactly one — a clear with
`ClearReason = "closed"` — when it has any computed date set, or it is not
also on-hold and has any estimate set; a closed item with nothing to clear
produces zero updates.  No later pass revisits the item: every update
targeting it is the Pass 1 clear. -/
theorem C2_closed_beats_unschedulable (gantt : GanttData) (u : String → Bool)
    (store : Store) (k : String) (w : IssueWithProject)
    (H1 : (store.map (fun p => taskIDOf p.2)).Nodup)
    (H3 : ((gantt.bars.filter (fun b => !b.isPackage)).map (fun b => b.id)).Nodup)
    (hmem : (k, w) ∈ store)
    (hclosed : eqFold w.state "closed" = true)
    (hproj : w.project.isSome = true)
    (hunsched : u k = true) :
    ((PrepareUpdates gantt store u).filter (tripleMatch w)
        = if w.hasSchedulingDates = true
              ∨ (¬(w.schedulingStatus = "On Hold")
                  ∧ (w.lowEstimate ≠ none ∨ w.highEstimate ≠ none))
          then [clearUpdate w "closed"] else [])
    ∧ (∀ upd ∈ (PrepareUpdates gantt store u).filter (tripleMatch w),
        upd.clearDates = true ∧ upd.clearReason = "closed") := by
  have heq : (PrepareUpdates gantt store u).filter (tripleMatch w)
      = if w.hasSchedulingDates = true
            ∨ (¬(w.schedulingStatus = "On Hold")
                ∧ (w.lowEstimate ≠ none ∨ w.highEstimate ≠ none))
        then [clearUpdate w "closed"] else [] := by
    rw [item_filter gantt u H1 H3 hmem, itemUpdates_closed gantt u k hclosed hproj]
  refine ⟨heq, ?_⟩
  intro upd hupd
  rw [heq] at hupd
  by_cases hcond : w.hasSchedulingDates = true
      ∨ (¬(w.schedulingStatus = "On Hold")
          ∧ (w.lowEstimate ≠ none ∨ w.highEstimate ≠ none))
  · rw [if_pos hcond] at hupd
    have : upd = clearUpdate w "closed" := by simpa using hupd
    rw [this]
    exact ⟨rfl, rfl⟩
  · rw [if_neg hcond] at hupd
    cases hupd

/-- Counterexample to claim C2 as stated: a closed, unschedulable-flagged
work item with no computed dates and no estimates produces zero DateUpdates,
not exactly one. -/
theorem C2_closed_unschedulable_nothing_to_clear :
    PrepareUpdates ⟨[]⟩
      [("github.com/o/r/issues/6",
        { owner := "o", repo := "r", issueNum := 6, state := "closed",
          project := some "p" })]
      (fun r => r == "github.com/o/r/issues/6") = [] := by
  decide

/-- Concrete inputs for the C2 witness. -/
def c2Issue : IssueWithProject :=
  { owner := "o"
    repo := "r"
    issueNum := 7
    state := "closed"
    project := some "p"
    hasSchedulingDates := true }

def c2Store : Store := [("github.com/o/r/issues/7", c2Issue)]

def c2Unsched : String → Bool := fun r => r == "github.com/o/r/issues/7"

/-- Witness for C2 at a concrete closed, unschedulable, date-carrying item. -/
theorem C2_closed_beats_unschedulable_witness :
    ((c2Store.map (fun p => taskIDOf p.2)).Nodup
      ∧ ((((⟨[]⟩ : GanttData).bars.filter (fun b => !b.isPackage)).map (fun b => b.id)).Nodup)
      ∧ ("github.com/o/r/issues/7", c2Issue) ∈ c2Store
      ∧ eqFold c2Issue.state "closed" = true
      ∧ c2Issue.project.isSome = true
      ∧ c2Unsched "github.com/o/r/issues/7" = true)
    ∧ (((PrepareUpdates ⟨[]⟩ c2Store c2Unsched).filter (tripleMatch c2Issue)
        = if c2Issue.hasSchedulingDates = true
              ∨ (¬(c2Issue.schedulingStatus = "On Hold")
                  ∧ (c2Issue.lowEstimate ≠ none ∨ c2Issue.highEstimate ≠ none))
          then [clearUpdate c2Issue "closed"] else [])
      ∧ (∀ upd ∈ (PrepareUpdates ⟨[]⟩ c2Store c2Unsched).filter (tripleMatch c2Issue),
          upd.clearDates = true ∧ upd.clearReason = "closed")) :=
  ⟨⟨by decide, by decide, by decide, by decide, by decide, by decide⟩,
    C2_closed_beats_unschedulable ⟨[]⟩ c2Unsched c2Store "github.com/o/r/issues/7" c2Issue
      (by decide) (by decide) (by decide) (by decide) (by decide) (by decide)⟩

/-- Claim C8: an on-hold, project-linked WorkItem with estimates set but no
computed dates produces zero DateUpdates: no pass writes to it. -/
theorem C8_onhold_estimates_preserved (gantt : GanttData) (u : String → Bool)
    (store : Store) (k : String) (w : IssueWithProject)
    (H1 : (store.map (fun p => taskIDOf p.2)).Nodup)
    (H3 : ((gantt.bars.filter (fun b => !b.isPackage)).map (fun b => b.id)).Nodup)
    (hmem : (k, w) ∈ store)
    (hhold : w.schedulingStatus = "On Hold")
    (hnodates : w.hasSchedulingDates = false)
    (hproj : w.project.isSome = true)
    (hest : w.lowEstimate ≠ none ∨ w.highEstimate ≠ none) :
    (PrepareUpdates gantt store u).filter (tripleMatch w) = [] := by
  rw [item_filter gantt u H1 H3 hmem]
  have hhb : isOnHoldB w = true := by
    unfold isOnHoldB
    rw [hhold]
    rfl
  have hm : marks1 w = true := by
    unfold marks1
    rw [hproj, hhb]
    simp
  have he : emits1 w = false := by
    unfold emits1
    rw [hhb, hnodates]
    simp
  unfold itemUpdates
  rw [if_neg (by rw [he]; exact Bool.false_ne_true), if_pos hm]

/-- Concrete inputs for the C8 witness. -/
def c8Issue : IssueWithProject :=
  { owner := "o"
    repo := "r"
    issueNum := 8
    state := "open"
    schedulingStatus := "On Hold"
    project := some "p"
    lowEstimate := some 2
    highEstimate := some 8 }

def c8Store : Store := [("github.com/o/r/issues/8", c8Issue)]

def c8Gantt : GanttData := ⟨[{ id := "o/r#8", name := "x" }]⟩

/-- Witness for C8 at a concrete on-hold item with only estimates. -/
theorem C8_onhold_estimates_preserved_witness :
    ((c8Store.map (fun p => taskIDOf p.2)).Nodup
      ∧ ((c8Gantt.bars.filter (fun b => !b.isPackage)).map (fun b => b.id)).Nodup
      ∧ ("github.com/o/r/issues/8", c8Issue) ∈ c8Store
      ∧ c8Issue.schedulingStatus = "On Hold"
      ∧ c8Issue.hasSchedulingDates = false
      ∧ c8Issue.project.isSome = true
      ∧ (c8Issue.lowEstimate ≠ none ∨ c8Issue.highEstimate ≠ none))
    ∧ (PrepareUpdates c8Gantt c8Store (fun _ => false)).filter (tripleMatch c8Issue) = [] :=
  ⟨⟨by decide, by decide, by decide, by decide, by decide, by decide, by decide⟩,
    C8_onhold_estimates_preserved c8Gantt (fun _ => false) c8Store
      "github.com/o/r/issues/8" c8Issue
      (by decide) (by decide) (by decide) (by decide) (by decide) (by decide)
      (by decide)⟩

/-! ## Claim C1: idempotence of the diff engine -/

/-- A store entry on which a run of `PrepareUpdates` is silent: Pass 1 emits
nothing for it, an unprocessed item is not an unschedulable date carrier, and
every bar carrying its task id is already unschedulable-skipped or
date-equal. -/
def settledEntry (gantt : GanttData) (u : String → Bool)
    (p : String × IssueWithProject) : Prop :=
  ((pass1Step p.2).1 = none)
  ∧ (marks1 p.2 = false →
      ¬(p.2.project.isSome = true ∧ (u p.1 && p.2.hasSchedulingDates) = true))
  ∧ (marks1 p.2 = false →
      ∀ bar ∈ gantt.bars, bar.isPackage = false → bar.id = taskIDOf p.2 →
        p.2.project.isSome = true → (u (refOf p.2) = true ∨ same3 p.2 bar = true))

theorem settled_pass1 {gantt : GanttData} {u : String → Bool} {store : Store}
    (hall : ∀ p ∈ store, settledEntry gantt u p) : (prepPass1 store).1 = [] := by
  rw [prepPass1_fst]
  rw [List.filterMap_eq_nil_iff]
  intro p hp
  exact (hall p hp).1

theorem settled_pass2 {gantt : GanttData} {u : String → Bool} :
    ∀ {store : Store}, (∀ p ∈ store, settledEntry gantt u p) →
    ∀ (ps : List String), (∀ p ∈ store, marks1 p.2 = true → taskIDOf p.2 ∈ ps) →
    prepPass2 u store ps = ([], ps) := by
  intro store
  induction store with
  | nil => intro _ ps _; rfl
  | cons p rest ih =>
    intro hall ps hps
    have hallr := fun q hq => hall q (List.mem_cons_of_mem _ hq)
    have hpsr := fun q hq => hps q (List.mem_cons_of_mem _ hq)
    rw [prepPass2]
    cases hq : p.2.project with
    | none => exact ih hallr ps hpsr
    | some pr =>
      dsimp only
      by_cases hc : ps.contains (taskIDOf p.2) = true
      · rw [if_pos hc]; exact ih hallr ps hpsr
      · rw [if_neg hc]
        have hm : marks1 p.2 = false := by
          cases hmm : marks1 p.2
          · rfl
          · exact absurd (List.elem_iff.mpr (hps p (List.mem_cons_self _ _) hmm)) hc
        have hforb := (hall p (List.mem_cons_self _ _)).2.1 hm
        have hcond : (u p.1 && p.2.hasSchedulingDates) = false := by
          cases hcc : (u p.1 && p.2.hasSchedulingDates)
          · rfl
          · exact absurd ⟨by rw [hq]; rfl, hcc⟩ hforb
        rw [if_neg (by rw [hcond]; exact Bool.false_ne_true)]
        exact ih hallr ps hpsr

theorem settled_pass3 {gantt : GanttData} {u : String → Bool} {store : Store}
    (hall : ∀ p ∈ store, settledEntry gantt u p) (ps : List String)
    (hps : ∀ p ∈ store, marks1 p.2 = true → taskIDOf p.2 ∈ ps) :
    ∀ {bars : List GanttBar}, (∀ b ∈ bars, b ∈ gantt.bars) →
      prepPass3 store u ps bars = [] := by
  intro bars
  induction bars with
  | nil => intro _; rfl
  | cons b rest ih =>
    intro hsub
    have hsubr := fun b' hb' => hsub b' (List.mem_cons_of_mem _ hb')
    rw [prepPass3]
    by_cases hpkg : b.isPackage = true
    · rw [if_pos hpkg]; exact ih hsubr
    · rw [if_neg hpkg]
      have hpkgf : b.isPackage = false := Bool.not_eq_true _ ▸ hpkg
      cases hl : lookupTask store b.id with
      | none => exact ih hsubr
      | some iwp =>
        dsimp only
        obtain ⟨pr0, hfind⟩ : ∃ pr0, store.find? (fun p => taskIDOf p.2 == b.id) = some pr0 := by
          unfold lookupTask at hl
          cases hfx : store.find? (fun p => taskIDOf p.2 == b.id) with
          | none => rw [hfx] at hl; cases hl
          | some pr0 => exact ⟨pr0, rfl⟩
        have hiwp : pr0.2 = iwp := by
          unfold lookupTask at hl
          rw [hfind] at hl
          cases hl
          rfl
        have hprmem : pr0 ∈ store := List.mem_of_find?_eq_some hfind
        have htid : taskIDOf iwp = b.id := by
          have hx := List.find?_some hfind
          rw [← hiwp]
          simpa using hx
        cases hq : iwp.project with
        | none => exact ih hsubr
        | some pr =>
          dsimp only
          by_cases hm : marks1 iwp = true
          · have hmem : taskIDOf iwp ∈ ps := by
              rw [← hiwp]
              exact hps pr0 hprmem (by rw [hiwp]; exact hm)
            rw [if_pos (by rw [← htid]; exact List.elem_iff.mpr hmem)]
            exact ih hsubr
          · have hm' : marks1 iwp = false := Bool.not_eq_true _ ▸ hm
            have hset := (hall pr0 hprmem).2.2 (by rw [hiwp]; exact hm') b
              (hsub b (List.mem_cons_self _ _)) hpkgf
              (by rw [hiwp, htid]) (by rw [hiwp, hq]; rfl)
            rw [hiwp] at hset
            by_cases hcps : ps.contains b.id = true
            · rw [if_pos hcps]; exact ih hsubr
            · rw [if_neg hcps]
              rcases hset with hset | hset
              · rw [if_pos hset]; exact ih hsubr
              · by_cases hu3 : u (refOf iwp) = true
                · rw [if_pos hu3]; exact ih hsubr
                · rw [if_neg hu3, if_pos hset]
                  exact ih hsubr

/-- A settled store yields a silent run. -/
theorem settled_no_updates {gantt : GanttData} {u : String → Bool} {store : Store}
    (hall : ∀ p ∈ store, settledEntry gantt u p) :
    PrepareUpdates gantt store u = [] := by
  unfold PrepareUpdates
  have hps : ∀ p ∈ store, marks1 p.2 = true → taskIDOf p.2 ∈ (prepPass1 store).2 := by
    intro p hp hm
    have : p = (p.1, p.2) := rfl
    rw [this] at hp
    exact mem_prepPass1_snd_self hp hm
  dsimp only
  rw [settled_pass1 hall, settled_pass2 hall _ hps]
  dsimp only
  rw [settled_pass3 hall _ hps (fun b hb => hb)]
  rfl

theorem isOnHoldB_applyUpdate (w : IssueWithProject) (u0 : DateUpdate) :
    isOnHoldB (applyUpdate w u0) = isOnHoldB w := by
  unfold isOnHoldB
  rw [(applyUpdate_skeleton w u0).2.2.2.2.1]

theorem isClosedB_applyUpdate (w : IssueWithProject) (u0 : DateUpdate) :
    isClosedB (applyUpdate w u0) = isClosedB w := by
  unfold isClosedB
  rw [(applyUpdate_skeleton w u0).2.2.2.1]

theorem marks1_applyUpdate (w : IssueWithProject) (u0 : DateUpdate) :
    marks1 (applyUpdate w u0) = marks1 w := by
  unfold marks1
  rw [isOnHoldB_applyUpdate, isClosedB_applyUpdate,
    (applyUpdate_skeleton w u0).2.2.2.2.2.1]

theorem refOf_applyUpdate (w : IssueWithProject) (u0 : DateUpdate) :
    refOf (applyUpdate w u0) = refOf w := by
  unfold refOf
  rw [(applyUpdate_skeleton w u0).1, (applyUpdate_skeleton w u0).2.1,
    (applyUpdate_skeleton w u0).2.2.1]

theorem taskIDOf_applyUpdate (w : IssueWithProject) (u0 : DateUpdate) :
    taskIDOf (applyUpdate w u0) = taskIDOf w :=
  taskIDOf_congr (applyUpdate_skeleton w u0).1 (applyUpdate_skeleton w u0).2.1
    (applyUpdate_skeleton w u0).2.2.1

theorem emits1_eq_false_of_marks1 {w : IssueWithProject} (h : marks1 w = false) :
    emits1 w = false := by
  unfold emits1
  rw [h]
  rfl

theorem marks1_hold_or_closed {w : IssueWithProject} (h : marks1 w = true) :
    isOnHoldB w = true ∨ isClosedB w = true := by
  unfold marks1 at h
  have h2 := (Bool.and_eq_true .. ▸ h).2
  exact Bool.or_eq_true _ _ ▸ h2

/-- After reflecting its own Pass 1 clear, a marked item is silent in Pass 1. -/
theorem settled_after_clear (w : IssueWithProject) (hm : marks1 w = true) :
    emits1 (applyUpdate w (clearUpdate w (reason1 w))) = false := by
  have hdates : (applyUpdate w (clearUpdate w (reason1 w))).hasSchedulingDates = false := by
    simp [applyUpdate, clearUpdate]
  unfold emits1
  rw [hdates, isOnHoldB_applyUpdate, isClosedB_applyUpdate]
  by_cases hh : isOnHoldB w = true
  · rw [hh]
    simp
  · have hcl : isClosedB w = true := by
      rcases marks1_hold_or_closed hm with h | h
      · exact absurd h hh
      · exact h
    have hr : reason1 w = "closed" := by
      unfold reason1
      rw [hcl]
      rfl
    have hlow : (applyUpdate w (clearUpdate w (reason1 w))).lowEstimate = none := by
      simp [applyUpdate, clearUpdate, hr]
    have hhigh : (applyUpdate w (clearUpdate w (reason1 w))).highEstimate = none := by
      simp [applyUpdate, clearUpdate, hr]
    rw [hcl, hlow, hhigh]
    simp

/-- After reflecting a set-dates write built from a bar, the three recorded
dates agree with that bar. -/
theorem sameDate_reflect (t : Time) :
    sameDate (if t.isZero then none else some t) t = true := by
  by_cases h : t.isZero = true
  · simp [sameDate, h]
  · simp [sameDate, h]

theorem same3_after_set (w : IssueWithProject) (bar : GanttBar) :
    same3 (applyUpdate w (setUpdate w bar)) bar = true := by
  have h1 : (applyUpdate w (setUpdate w bar)).expectedStart
      = if bar.expStartDate.isZero then none else some bar.expStartDate := by
    simp [applyUpdate, setUpdate]
  have h2 : (applyUpdate w (setUpdate w bar)).expectedCompletion
      = if bar.meanDate.isZero then none else some bar.meanDate := by
    simp [applyUpdate, setUpdate]
  have h3 : (applyUpdate w (setUpdate w bar)).completion98
      = if bar.end98Date.isZero then none else some bar.end98Date := by
    simp [applyUpdate, setUpdate]
  unfold same3
  rw [h1, h2, h3, sameDate_reflect, sameDate_reflect, sameDate_reflect]
  rfl

theorem findBar_unique {bars : List GanttBar} {tid : String} {bar₀ bar : GanttBar}
    (H3 : ((bars.filter (fun b => !b.isPackage)).map (fun b => b.id)).Nodup)
    (hf : findBar bars tid = some bar₀)
    (hbar : bar ∈ bars) (hbp : bar.isPackage = false) (hbid : bar.id = tid) :
    bar = bar₀ := by
  have h₀mem := List.mem_of_find?_eq_some hf
  have h₀pred := List.find?_some hf
  simp only [Bool.and_eq_true, Bool.not_eq_true', beq_iff_eq] at h₀pred
  have hbarF : bar ∈ bars.filter (fun b => !b.isPackage) :=
    List.mem_filter.mpr ⟨hbar, by simp [hbp]⟩
  have h₀F : bar₀ ∈ bars.filter (fun b => !b.isPackage) :=
    List.mem_filter.mpr ⟨h₀mem, by simp [h₀pred.1]⟩
  exact List.inj_on_of_nodup_map H3 hbarF h₀F (hbid.trans h₀pred.2.symm)

/-- Reflecting a full run's writes produces a settled store. -/
theorem reflect_settles (gantt : GanttData) (u : String → Bool) (store : Store)
    (H1 : (store.map (fun p => taskIDOf p.2)).Nodup)
    (H2 : ∀ p ∈ store, p.1 = refOf p.2)
    (H3 : ((gantt.bars.filter (fun b => !b.isPackage)).map (fun b => b.id)).Nodup) :
    ∀ q ∈ reflectStore store (PrepareUpdates gantt store u), settledEntry gantt u q := by
  intro q hq
  obtain ⟨p, hp, hpq⟩ := List.mem_map.mp hq
  obtain ⟨k, w⟩ := p
  rw [← hpq]
  dsimp only
  unfold settledEntry
  dsimp only
  have hk : k = refOf w := H2 (k, w) hp
  have happ : applyAll w (PrepareUpdates gantt store u)
      = applyAll w (itemUpdates gantt u k w) := by
    rw [applyAll_eq_filter, item_filter gantt u H1 H3 hp]
  by_cases he : emits1 w = true
  · -- Pass 1 emitted a clear; the reflected item has nothing left to clear.
    have hm := emits1_marks1 he
    have hw' : applyAll w (PrepareUpdates gantt store u)
        = applyUpdate w (clearUpdate w (reason1 w)) := by
      rw [happ]
      unfold itemUpdates
      rw [if_pos he]
      exact applyAll_single _ _ (tripleMatch_clearUpdate_self w _)
    refine ⟨?_, ?_, ?_⟩
    · show (pass1Step (applyAll w (PrepareUpdates gantt store u))).1 = none
      rw [hw', pass1Step_fst, if_neg ?hne]
      case hne =>
        rw [settled_after_clear w hm]
        exact Bool.false_ne_true
    · intro hmf
      rw [hw', marks1_applyUpdate] at hmf
      rw [hmf] at hm
      cases hm
    · intro hmf
      rw [hw', marks1_applyUpdate] at hmf
      rw [hmf] at hm
      cases hm
  · by_cases hm : marks1 w = true
    · -- Marked but nothing emitted: the item is unchanged and still silent.
      have hw' : applyAll w (PrepareUpdates gantt store u) = w := by
        rw [happ]
        unfold itemUpdates
        rw [if_neg he, if_pos hm]
        rfl
      refine ⟨?_, ?_, ?_⟩
      · show (pass1Step (applyAll w (PrepareUpdates gantt store u))).1 = none
        rw [hw', pass1Step_fst,
          if_neg (by rw [Bool.not_eq_true] at he; rw [he]; exact Bool.false_ne_true)]
      · intro hmf
        rw [hw'] at hmf
        rw [hmf] at hm
        cases hm
      · intro hmf
        rw [hw'] at hmf
        rw [hmf] at hm
        cases hm
    · rw [Bool.not_eq_true] at hm
      have hmn : ¬(marks1 w = true) := by rw [hm]; exact Bool.false_ne_true
      by_cases hc2 : (w.project.isSome && u k && w.hasSchedulingDates) = true
      · -- Pass 2 emitted an unschedulable clear; the reflected item has no dates.
        have huk : u k = true := by
          rw [Bool.and_assoc] at hc2
          exact (Bool.and_eq_true .. ▸ (Bool.and_eq_true .. ▸ hc2).2).1
        have hw' : applyAll w (PrepareUpdates gantt store u)
            = applyUpdate w (clearUpdate w "unschedulable") := by
          rw [happ]
          unfold itemUpdates
          rw [if_neg he, if_neg hmn, if_pos hc2]
          exact applyAll_single _ _ (tripleMatch_clearUpdate_self w _)
        have hdates : (applyUpdate w (clearUpdate w "unschedulable")).hasSchedulingDates
            = false := by
          simp [applyUpdate, clearUpdate]
        refine ⟨?_, ?_, ?_⟩
        · show (pass1Step (applyAll w (PrepareUpdates gantt store u))).1 = none
          rw [hw', pass1Step_fst, if_neg ?hne2]
          case hne2 =>
            rw [emits1_eq_false_of_marks1 (by rw [marks1_applyUpdate, hm])]
            exact Bool.false_ne_true
        · intro _
          rintro ⟨-, hcc⟩
          rw [hw', hdates, Bool.and_false] at hcc
          cases hcc
        · intro _ bar _ _ _ _
          refine Or.inl ?_
          rw [hw', refOf_applyUpdate, ← hk]
          exact huk
      · have hc2' : ¬(w.project.isSome = true ∧ (u k && w.hasSchedulingDates) = true) := by
          rintro ⟨h1, h2⟩
          exact hc2 (by rw [Bool.and_assoc, h1, h2]; rfl)
        cases hfb : findBar gantt.bars (taskIDOf w) with
        | none =>
          -- No bar carries the task id: the item is untouched and no bar matches.
          have hw' : applyAll w (PrepareUpdates gantt store u) = w := by
            rw [happ]
            unfold itemUpdates
            rw [if_neg he, if_neg hmn, if_neg hc2, hfb]
            rfl
          refine ⟨?_, ?_, ?_⟩
          · show (pass1Step (applyAll w (PrepareUpdates gantt store u))).1 = none
            rw [hw', pass1Step_fst,
              if_neg (by rw [Bool.not_eq_true] at he; rw [he]; exact Bool.false_ne_true)]
          · intro _
            rw [hw']
            exact hc2'
          · intro _ bar hbar hbp hbid _
            exfalso
            rw [hw'] at hbid
            have := List.find?_eq_none.mp hfb bar hbar
            simp only [Bool.and_eq_true, Bool.not_eq_true', beq_iff_eq, not_and] at this
            exact this hbp hbid
        | some bar₀ =>
          by_cases hemit : (w.project.isSome && !u (refOf w) && !same3 w bar₀) = true
          · -- Pass 3 emitted a set-dates write; the reflected dates match the bar.
            have hw' : applyAll w (PrepareUpdates gantt store u)
                = applyUpdate w (setUpdate w bar₀) := by
              rw [happ]
              unfold itemUpdates
              rw [if_neg he, if_neg hmn, if_neg hc2, hfb]
              dsimp only
              rw [if_pos hemit]
              exact applyAll_single _ _ (tripleMatch_setUpdate_self w _)
            have hunoref : u (refOf w) = false := by
              have h1 := (Bool.and_eq_true .. ▸ (Bool.and_eq_true .. ▸ hemit).1).2
              rwa [Bool.not_eq_true'] at h1
            refine ⟨?_, ?_, ?_⟩
            · show (pass1Step (applyAll w (PrepareUpdates gantt store u))).1 = none
              rw [hw', pass1Step_fst, if_neg ?hne3]
              case hne3 =>
                rw [emits1_eq_false_of_marks1 (by rw [marks1_applyUpdate, hm])]
                exact Bool.false_ne_true
            · intro _
              rintro ⟨-, hcc⟩
              rw [hk, hw', hunoref, Bool.false_and] at hcc
              cases hcc
            · intro _ bar hbar hbp hbid _
              refine Or.inr ?_
              rw [hw'] at hbid ⊢
              rw [taskIDOf_applyUpdate] at hbid
              have hbb : bar = bar₀ := findBar_unique H3 hfb hbar hbp hbid
              rw [hbb]
              exact same3_after_set w bar₀
          · -- Pass 3 skipped the bar; the item is untouched and the bar stays skipped.
            have hw' : applyAll w (PrepareUpdates gantt store u) = w := by
              rw [happ]
              unfold itemUpdates
              rw [if_neg he, if_neg hmn, if_neg hc2, hfb]
              dsimp only
              rw [if_neg hemit]
              rfl
            refine ⟨?_, ?_, ?_⟩
            · show (pass1Step (applyAll w (PrepareUpdates gantt store u))).1 = none
              rw [hw', pass1Step_fst,
                if_neg (by rw [Bool.not_eq_true] at he; rw [he]; exact Bool.false_ne_true)]
            · intro _
              rw [hw']
              exact hc2'
            · intro _ bar hbar hbp hbid hproj
              rw [hw'] at hbid hproj ⊢
              have hbb : bar = bar₀ := findBar_unique H3 hfb hbar hbp hbid
              rw [hbb]
              by_cases hu3 : u (refOf w) = true
              · exact Or.inl hu3
              · refine Or.inr ?_
                cases hs3 : same3 w bar₀ with
                | true => rfl
                | false =>
                  exfalso
                  apply hemit
                  rw [hproj, hs3]
                  rw [Bool.not_eq_true] at hu3
                  rw [hu3]
                  rfl

/-- Pass 3 emits nothing for a bar whose matched item has date-equal records. -/
theorem pass3_skip_when_same (store : Store) (u : String → Bool) (ps : List String)
    (bar : GanttBar) (rest : List GanttBar) (iwp : IssueWithProject)
    (hlook : lookupTask store bar.id = some iwp)
    (hsame : same3 iwp bar = true) :
    prepPass3 store u ps (bar :: rest) = prepPass3 store u ps rest := by
  rw [prepPass3]
  by_cases hpkg : bar.isPackage = true
  · rw [if_pos hpkg]
  · rw [if_neg hpkg, hlook]
    dsimp only
    cases hq : iwp.project with
    | none => rfl
    | some pr =>
      dsimp only
      by_cases hc : ps.contains bar.id = true
      · rw [if_pos hc]
      · rw [if_neg hc]
        by_cases hu : u (refOf iwp) = true
        · rw [if_pos hu]
        · rw [if_neg hu, if_pos hsame]

/-- Claim C1: in Pass 3 of `PrepareUpdates`, a scheduler bar whose three
proposed dates all equal the matched work item's recorded dates under the
date-only comparison (an unset recorded date equalling a zero proposal)
contributes no DateUpdate; and consequently, for a store with pairwise
distinct task ids whose keys are the canonical reference keys, and scheduler
output with pairwise distinct non-package bar ids, running `PrepareUpdates`
a second time after the first run's writes have been reflected into the
store's recorded dates produces zero DateUpdates. -/
theorem C1_idempotence :
    (∀ (store : Store) (u : String → Bool) (ps : List String) (bar : GanttBar)
        (rest : List GanttBar) (iwp : IssueWithProject),
        lookupTask store bar.id = some iwp → same3 iwp bar = true →
        prepPass3 store u ps (bar :: rest) = prepPass3 store u ps rest)
    ∧ (∀ (gantt : GanttData) (store : Store) (u : String → Bool),
        (store.map (fun p => taskIDOf p.2)).Nodup →
        (∀ p ∈ store, p.1 = refOf p.2) →
        ((gantt.bars.filter (fun b => !b.isPackage)).map (fun b => b.id)).Nodup →
        PrepareUpdates gantt (reflectStore store (PrepareUpdates gantt store u)) u = []) := by
  constructor
  · intro store u ps bar rest iwp hlook hsame
    exact pass3_skip_when_same store u ps bar rest iwp hlook hsame
  · intro gantt store u H1 H2 H3
    exact settled_no_updates (reflect_settles gantt u store H1 H2 H3)

/-- Concrete inputs for the C1 witness: one active project-linked issue with
changed dates; the first run writes the bar's dates, the second is silent. -/
def c1Issue : IssueWithProject :=
  { owner := "o"
    repo := "r"
    issueNum := 1
    state := "open"
    project := some "p" }

def c1Store : Store := [("github.com/o/r/issues/1", c1Issue)]

def c1Gantt : GanttData :=
  ⟨[{ id := "o/r#1", name := "T", expStartDate := ⟨100, 0⟩, meanDate := ⟨105, 0⟩,
      end98Date := ⟨110, 0⟩ }]⟩

/-- Witness for C1: the second run on the reflected store is silent. -/
theorem C1_idempotence_witness :
    ((c1Store.map (fun p => taskIDOf p.2)).Nodup
      ∧ (∀ p ∈ c1Store, p.1 = refOf p.2)
      ∧ ((c1Gantt.bars.filter (fun b => !b.isPackage)).map (fun b => b.id)).Nodup)
    ∧ PrepareUpdates c1Gantt
        (reflectStore c1Store (PrepareUpdates c1Gantt c1Store (fun _ => false)))
        (fun _ => false) = [] :=
  ⟨⟨by decide, by decide, by decide⟩,
    C1_idempotence.2 c1Gantt c1Store (fun _ => false) (by decide) (by decide) (by decide)⟩

/-! ## Infrastructure for the normalizer claims (C4, C6) -/

theorem mem_ite_singleton {α : Type} {c : Prop} [Decidable c] {x si : α}
    (h : si ∈ if c then [x] else []) : si = x := by
  split at h
  · simpa using h
  · cases h

theorem buildIssues_issueRef (store : Store) (ref : String) (iwp : IssueWithProject) :
    ∀ si ∈ buildIssues store ref iwp, si.issueRef = ref := by
  intro si h
  unfold buildIssues at h
  dsimp only at h
  split at h
  · cases h
  · simp only [List.mem_append] at h
    rcases h with ((((h | h) | h) | h) | h)
    · rw [mem_ite_singleton h]
    · rw [mem_ite_singleton h]
    · rw [mem_ite_singleton h]
    · rw [mem_ite_singleton h]
    · rcases hlo : iwp.lowEstimate with _ | lo
      · rw [hlo] at h
        simp at h
      · rcases hhi : iwp.highEstimate with _ | hi
        · rw [hlo, hhi] at h
          simp at h
        · rw [hlo, hhi] at h
          dsimp only at h
          rw [mem_ite_singleton h]

theorem buildIssues_exempt (store : Store) (ref : String) (iwp : IssueWithProject)
    (hx : iwp.isDraft = true ∨ iwp.schedulingStatus = "On Hold"
      ∨ eqFold iwp.state "closed" = true) :
    buildIssues store ref iwp = [] := by
  have hb : ((iwp.isDraft || iwp.schedulingStatus == "On Hold")
      || eqFold iwp.state "closed") = true := by
    rcases hx with h | h | h <;> simp [h]
  unfold buildIssues
  dsimp only
  rw [if_pos hb]

theorem countP_ite_singleton {α : Type} {c : Prop} [Decidable c] {x : α} {p : α → Bool}
    (hp : p x = false) : (if c then [x] else []).countP p = 0 := by
  split
  · simp [List.countP_singleton, hp]
  · rfl

theorem countP_ite_nil_singleton {α : Type} {c : Prop} [Decidable c] {x : α} {p : α → Bool}
    (hp : p x = false) : (if c then ([] : List α) else [x]).countP p = 0 := by
  split
  · rfl
  · simp [List.countP_singleton, hp]

theorem buildIssues_estimates (store : Store) (ref : String) (iwp : IssueWithProject)
    (hact : ((iwp.isDraft || iwp.schedulingStatus == "On Hold")
      || eqFold iwp.state "closed") = false) :
    ((buildIssues store ref iwp).countP (fun si => si.reason == "missing_estimate")
        = if iwp.lowEstimate = none ∨ iwp.highEstimate = none then 1 else 0)
    ∧ (∀ si ∈ buildIssues store ref iwp, si.reason = "missing_estimate" →
        si.details = (if iwp.lowEstimate.isNone then ["Low Estimate"] else [])
          ++ (if iwp.highEstimate.isNone then ["High Estimate"] else []))
    ∧ (∀ lo hi, iwp.lowEstimate = some lo → iwp.highEstimate = some hi →
        (buildIssues store ref iwp).countP (fun si => si.reason == "invalid_estimate")
          = if hi < lo then 1 else 0)
    ∧ ((iwp.lowEstimate = none ∨ iwp.highEstimate = none) →
        (buildIssues store ref iwp).countP (fun si => si.reason == "invalid_estimate") = 0) := by
  have hne : ¬(((iwp.isDraft || iwp.schedulingStatus == "On Hold")
      || eqFold iwp.state "closed") = true) := by
    rw [hact]
    exact Bool.false_ne_true
  refine ⟨?_, ?_, ?_, ?_⟩
  · unfold buildIssues
    dsimp only
    rw [if_neg hne]
    rcases hlo : iwp.lowEstimate with _ | lo <;>
      rcases hhi : iwp.highEstimate with _ | hi <;>
        simp [List.countP_append, List.countP_singleton, countP_ite_singleton, countP_ite_nil_singleton]
  · intro si hmem hr
    unfold buildIssues at hmem
    dsimp only at hmem
    rw [if_neg hne] at hmem
    simp only [List.mem_append] at hmem
    rcases hmem with ((((h | h) | h) | h) | h)
    · rw [mem_ite_singleton h] at hr
      exact absurd hr (by simp)
    · rw [mem_ite_singleton h] at hr
      exact absurd hr (by simp)
    · rw [mem_ite_singleton h] at hr
      exact absurd hr (by simp)
    · rw [mem_ite_singleton h]
    · rcases hlo : iwp.lowEstimate with _ | lo
      · rw [hlo] at h
        simp at h
      · rcases hhi : iwp.highEstimate with _ | hi
        · rw [hlo, hhi] at h
          simp at h
        · rw [hlo, hhi] at h
          dsimp only at h
          rw [mem_ite_singleton h] at hr
          exact absurd hr (by simp)
  · intro lo hi hlo hhi
    unfold buildIssues
    dsimp only
    rw [if_neg hne, hlo, hhi]
    by_cases hcmp : hi < lo <;>
      simp [List.countP_append, List.countP_singleton, countP_ite_singleton, countP_ite_nil_singleton, hcmp]
  · intro hor
    unfold buildIssues
    dsimp only
    rw [if_neg hne]
    rcases hlo : iwp.lowEstimate with _ | lo <;>
      rcases hhi : iwp.highEstimate with _ | hi <;>
        simp [List.countP_append, List.countP_singleton, countP_ite_singleton, countP_ite_nil_singleton] <;>
          simp [hlo, hhi] at hor

theorem filter_flatMap_issues_ne (store : Store) (l : Store) (ref : String)
    (habs : ref ∉ l.map Prod.fst) :
    (l.flatMap (fun p => buildIssues store p.1 p.2)).filter
        (fun si => si.issueRef == ref) = [] := by
  induction l with
  | nil => rfl
  | cons hd tl ih =>
    rw [List.flatMap_cons, List.filter_append]
    have hsplit : hd.1 ≠ ref ∧ ref ∉ tl.map Prod.fst := by
      constructor
      · intro hc
        exact habs (by rw [List.map_cons, hc]; exact List.mem_cons_self _ _)
      · intro hc
        exact habs (by rw [List.map_cons]; exact List.mem_cons_of_mem _ hc)
    have h1 : (buildIssues store hd.1 hd.2).filter (fun si => si.issueRef == ref) = [] := by
      apply List.filter_eq_nil_iff.mpr
      intro si hsi
      rw [buildIssues_issueRef store hd.1 hd.2 si hsi]
      simp [hsplit.1]
    rw [h1, List.nil_append]
    exact ih hsplit.2

theorem filter_flatMap_issues (store : Store) (l : Store) (ref : String)
    (iwp : IssueWithProject) (hnodup : (l.map Prod.fst).Nodup) (hmem : (ref, iwp) ∈ l) :
    (l.flatMap (fun p => buildIssues store p.1 p.2)).filter
        (fun si => si.issueRef == ref) = buildIssues store ref iwp := by
  induction l with
  | nil => cases hmem
  | cons hd tl ih =>
    rw [List.flatMap_cons, List.filter_append]
    rw [List.map_cons, List.nodup_cons] at hnodup
    rcases List.mem_cons.mp hmem with heq | hmem
    case inl =>
      have h1 : (buildIssues store hd.1 hd.2).filter (fun si => si.issueRef == ref)
          = buildIssues store hd.1 hd.2 := by
        apply List.filter_eq_self.mpr
        intro si hsi
        rw [buildIssues_issueRef store hd.1 hd.2 si hsi, ← heq]
        exact beq_self_eq_true ref
      have h2 : (tl.flatMap (fun p => buildIssues store p.1 p.2)).filter
          (fun si => si.issueRef == ref) = [] := by
        apply filter_flatMap_issues_ne
        rw [← heq] at hnodup
        exact hnodup.1
      rw [h1, h2, List.append_nil, ← heq]
    case inr =>
      have hne : hd.1 ≠ ref := by
        intro hc
        exact hnodup.1 (by rw [hc]; exact List.mem_map.mpr ⟨(ref, iwp), hmem, rfl⟩)
      have h1 : (buildIssues store hd.1 hd.2).filter (fun si => si.issueRef == ref) = [] := by
        apply List.filter_eq_nil_iff.mpr
        intro si hsi
        rw [buildIssues_issueRef store hd.1 hd.2 si hsi]
        simp [hne]
      rw [h1, List.nil_append]
      exact ih hnodup.2 hmem

/-- C6: in `IssuesToTasks`, for a store entry (under distinct store keys)
that is neither on-hold (draft or "On Hold") nor closed: exactly one
`missing_estimate` diagnostic is raised precisely when some estimate is nil,
its details list exactly the nil estimate fields; with both estimates
present, an `invalid_estimate` diagnostic is raised exactly when
high < low (so equal values raise nothing), and never when an estimate is
nil.  An on-hold, draft or closed entry gets no diagnostics at all. -/
theorem C6_estimate_diagnostics (store : Store) (ref : String) (iwp : IssueWithProject)
    (hkeys : (store.map Prod.fst).Nodup) (hmem : (ref, iwp) ∈ store) :
    (((iwp.isDraft || iwp.schedulingStatus == "On Hold") || eqFold iwp.state "closed") = true →
      (IssuesToTasks store).2.filter (fun si => si.issueRef == ref) = [])
    ∧ (((iwp.isDraft || iwp.schedulingStatus == "On Hold") || eqFold iwp.state "closed") = false →
      (((IssuesToTasks store).2.filter (fun si => si.issueRef == ref)).countP
          (fun si => si.reason == "missing_estimate")
        = if iwp.lowEstimate = none ∨ iwp.highEstimate = none then 1 else 0)
      ∧ (∀ si ∈ (IssuesToTasks store).2.filter (fun si => si.issueRef == ref),
          si.reason = "missing_estimate" →
          si.details = (if iwp.lowEstimate.isNone then ["Low Estimate"] else [])
            ++ (if iwp.highEstimate.isNone then ["High Estimate"] else []))
      ∧ (∀ lo hi, iwp.lowEstimate = some lo → iwp.highEstimate = some hi →
          ((IssuesToTasks store).2.filter (fun si => si.issueRef == ref)).countP
            (fun si => si.reason == "invalid_estimate") = if hi < lo then 1 else 0)
      ∧ ((iwp.lowEstimate = none ∨ iwp.highEstimate = none) →
          ((IssuesToTasks store).2.filter (fun si => si.issueRef == ref)).countP
            (fun si => si.reason == "invalid_estimate") = 0)) := by
  have hperm := (List.perm_insertionSort
    (fun a b : String × IssueWithProject => a.2.order ≤ b.2.order) store)
  have hsk : ((sortedIssues store).map Prod.fst).Nodup :=
    ((hperm.map Prod.fst).nodup_iff).mpr hkeys
  have hsm : (ref, iwp) ∈ sortedIssues store := hperm.mem_iff.mpr hmem
  have hfil : (IssuesToTasks store).2.filter (fun si => si.issueRef == ref)
      = buildIssues store ref iwp :=
    filter_flatMap_issues store (sortedIssues store) ref iwp hsk hsm
  constructor
  · intro hexempt
    rw [hfil]
    simp only [Bool.or_eq_true, beq_iff_eq] at hexempt
    rcases hexempt with (h | h) | h
    · exact buildIssues_exempt store ref iwp (Or.inl h)
    · exact buildIssues_exempt store ref iwp (Or.inr (Or.inl h))
    · exact buildIssues_exempt store ref iwp (Or.inr (Or.inr h))
  · intro hact
    rw [hfil]
    exact buildIssues_estimates store ref iwp hact

/-- The concrete store for the C6 witness: one open item with a low estimate
of 8 and a high estimate of 4 (invalid), one with only the high estimate
missing, and a closed item with the same bad estimates. -/
def c6Bad : IssueWithProject :=
  { owner := "o"
    repo := "r"
    issueNum := 1
    state := "open"
    lowEstimate := some 8
    highEstimate := some 4 }

def c6Missing : IssueWithProject :=
  { owner := "o"
    repo := "r"
    issueNum := 2
    state := "open"
    lowEstimate := some 4 }

def c6Closed : IssueWithProject :=
  { owner := "o"
    repo := "r"
    issueNum := 3
    state := "closed"
    lowEstimate := some 8
    highEstimate := some 4 }

def c6Store : Store :=
  [("github.com/o/r/issues/1", c6Bad),
   ("github.com/o/r/issues/2", c6Missing),
   ("github.com/o/r/issues/3", c6Closed)]

/-- Witness for C6 at the invalid-estimate item: low 8, high 4 yields
exactly one `invalid_estimate` diagnostic and no `missing_estimate`. -/
theorem C6_estimate_diagnostics_witness :
    (c6Store.map Prod.fst).Nodup ∧ ("github.com/o/r/issues/1", c6Bad) ∈ c6Store
    ∧ (((c6Bad.isDraft || c6Bad.schedulingStatus == "On Hold")
          || eqFold c6Bad.state "closed") = false
      ∧ ((IssuesToTasks c6Store).2.filter
            (fun si => si.issueRef == "github.com/o/r/issues/1")).countP
          (fun si => si.reason == "missing_estimate") = 0
      ∧ ((IssuesToTasks c6Store).2.filter
            (fun si => si.issueRef == "github.com/o/r/issues/1")).countP
          (fun si => si.reason == "invalid_estimate") = 1) := by
  refine ⟨by decide, by decide, by decide, ?_, ?_⟩
  · have h := (C6_estimate_diagnostics c6Store "github.com/o/r/issues/1" c6Bad
      (by decide) (by decide)).2 (by decide)
    rw [h.1]
    decide
  · have h := (C6_estimate_diagnostics c6Store "github.com/o/r/issues/1" c6Bad
      (by decide) (by decide)).2 (by decide)
    have h3 := h.2.2.1 8 4 (by decide) (by decide)
    rw [h3]
    decide

/-- The bucket the blocker loop assigns to one `blockedBy` edge: 0 target
absent, 1 target closed (silently dropped), 2 target on-hold or draft,
3 genuine dependency. -/
def bucketOf (store : Store) (b : IssueRef) : Nat :=
  match lookupRef store (depKeyOf b) with
  | none => 0
  | some t =>
    if eqFold t.state "closed" then 1
    else if t.schedulingStatus == "On Hold" || t.isDraft then 2 else 3

theorem classifyDeps_eq (store : Store) (bs : List IssueRef) :
    classifyDeps store bs
      = ((bs.filter (fun b => bucketOf store b == 0)).map depIDOf,
         (bs.filter (fun b => bucketOf store b == 2)).map depIDOf,
         (bs.filter (fun b => bucketOf store b == 3)).map depIDOf) := by
  induction bs with
  | nil => rfl
  | cons b rest ih =>
    unfold classifyDeps
    rw [ih]
    cases hl : lookupRef store (depKeyOf b) with
    | none =>
      have hb : bucketOf store b = 0 := by
        unfold bucketOf
        rw [hl]
      simp [List.filter_cons, hb]
    | some t =>
      by_cases hc : eqFold t.state "closed" = true
      · have hb : bucketOf store b = 1 := by
          unfold bucketOf
          rw [hl]
          dsimp only
          rw [if_pos hc]
        simp [List.filter_cons, hb, hc]
      · by_cases hoh : (t.schedulingStatus == "On Hold" || t.isDraft) = true
        · have hb : bucketOf store b = 2 := by
            unfold bucketOf
            rw [hl]
            dsimp only
            rw [if_neg hc, if_pos hoh]
          have hok : onHoldKey store (depKeyOf b) = true := by
            unfold onHoldKey
            rw [hl]
            exact hoh
          simp [List.filter_cons, hb, hc, hok]
        · have hb : bucketOf store b = 3 := by
            unfold bucketOf
            rw [hl]
            dsimp only
            rw [if_neg hc, if_neg hoh]
          have hok : onHoldKey store (depKeyOf b) = false := by
            unfold onHoldKey
            rw [hl]
            exact Bool.eq_false_iff.mpr hoh
          simp [List.filter_cons, hb, hc, hok]

/-- The concrete C4 scenario: item A (open) blocked by B (absent from the
store) and C (open, on-hold). -/
def c4A : IssueWithProject :=
  { owner := "o"
    repo := "r"
    issueNum := 1
    state := "open"
    blockedBy := [⟨"o", "r", 2⟩, ⟨"o", "r", 3⟩] }

def c4C : IssueWithProject :=
  { owner := "o"
    repo := "r"
    issueNum := 3
    state := "open"
    schedulingStatus := "On Hold" }

def c4Store : Store :=
  [("github.com/o/r/issues/1", c4A), ("github.com/o/r/issues/3", c4C)]

/-- C4: the blocker loop sorts every `blockedBy` edge into exactly one
bucket - absent targets into the `missing_dependency` details, open on-hold
or draft targets into the `onhold_dependency` details, closed targets into
none (silently dropped), and all remaining targets into the Task's
`DependsOn`; every produced Task's `DependsOn` holds exactly its entry's
genuine (bucket 3) edges; in the concrete scenario, A's Task depends on
neither B nor C while a `missing_dependency` diagnostic naming B and an
`onhold_dependency` diagnostic naming C are raised for A. -/
theorem C4_dependency_classification (store : Store) (bs : List IssueRef) :
    ((classifyDeps store bs).1
        = (bs.filter (fun b => bucketOf store b == 0)).map depIDOf
      ∧ (classifyDeps store bs).2.1
        = (bs.filter (fun b => bucketOf store b == 2)).map depIDOf
      ∧ (classifyDeps store bs).2.2
        = (bs.filter (fun b => bucketOf store b == 3)).map depIDOf)
    ∧ (∀ t ∈ (IssuesToTasks store).1, ∃ p, p ∈ store
        ∧ t.dependsOn
          = (p.2.blockedBy.filter (fun b => bucketOf store b == 3)).map depIDOf)
    ∧ (∃ t ∈ (IssuesToTasks c4Store).1, t.id = "o/r#1"
        ∧ t.dependsOn = []
        ∧ (IssuesToTasks c4Store).2.countP
            (fun si => si.issueRef == "github.com/o/r/issues/1"
              && (si.reason == "missing_dependency" && si.details.contains "o/r#2")) = 1
        ∧ (IssuesToTasks c4Store).2.countP
            (fun si => si.issueRef == "github.com/o/r/issues/1"
              && (si.reason == "onhold_dependency" && si.details.contains "o/r#3")) = 1) := by
  refine ⟨⟨?_, ?_, ?_⟩, ?_, ?_⟩
  · rw [classifyDeps_eq]
  · rw [classifyDeps_eq]
  · rw [classifyDeps_eq]
  · intro t ht
    unfold IssuesToTasks at ht
    dsimp only at ht
    rcases List.mem_map.mp ht with ⟨q, hq, rfl⟩
    refine ⟨q.2, ?_, ?_⟩
    · have h1 : q.2 ∈ (sortedIssues store).enum.map Prod.snd := List.mem_map_of_mem _ hq
      rw [List.enum_map_snd] at h1
      exact (List.perm_insertionSort
        (fun a b : String × IssueWithProject => a.2.order ≤ b.2.order)
          store).mem_iff.mp h1
    · show (buildTask store (pkgRank store) q.1 q.2.1 q.2.2).dependsOn = _
      unfold buildTask
      dsimp only
      rw [classifyDeps_eq]
  · decide

/-! ## Infrastructure for the package-ordering claim (C9) -/

/-- Strict instant order at the Prop level. -/
def tLt (u v : Time) : Prop := u.day < v.day ∨ (u.day = v.day ∧ u.tod < v.tod)

/-- Strict semantic-version order at the Prop level. -/
def svLt (a b : Semver) : Prop :=
  a.major < b.major
    ∨ (a.major = b.major
        ∧ (a.minor < b.minor ∨ (a.minor = b.minor ∧ a.patch < b.patch)))

theorem before_iff (u v : Time) : (u.before v = true) ↔ tLt u v := by
  unfold Time.before tLt
  simp [Bool.or_eq_true, Bool.and_eq_true, decide_eq_true_iff, beq_iff_eq]

theorem equal_iff (u v : Time) : (u.equal v = true) ↔ u = v := by
  unfold Time.equal
  cases u
  cases v
  simp [Time.mk.injEq]

theorem cmp_lt_iff (a b : Semver) : compareSemver a b < 0 ↔ svLt a b := by
  unfold compareSemver svLt
  split_ifs <;> omega

theorem cmp_pos_iff (a b : Semver) : 0 < compareSemver a b ↔ svLt b a := by
  unfold compareSemver svLt
  split_ifs <;> omega

theorem cmp_zero_iff (a b : Semver) : compareSemver a b = 0 ↔ a = b := by
  cases a
  cases b
  unfold compareSemver
  simp only [Semver.mk.injEq]
  split_ifs <;> (try omega) <;> simp <;> omega

/-- Strict due-date key order (due-dated groups first, then earlier dates). -/
def DLt (a b : PackageInfo) : Prop :=
  (a.hasDueDate = true ∧ b.hasDueDate = false)
    ∨ (a.hasDueDate = true ∧ b.hasDueDate = true ∧ tLt a.dueDate b.dueDate)

/-- Due-date key equivalence. -/
def DEq (a b : PackageInfo) : Prop :=
  a.hasDueDate = b.hasDueDate ∧ (a.hasDueDate = true → a.dueDate = b.dueDate)

/-- Strict version key order (versioned groups first, then ascending version). -/
def SLt (a b : PackageInfo) : Prop :=
  (a.hasSemver = true ∧ b.hasSemver = false)
    ∨ (a.hasSemver = true ∧ b.hasSemver = true ∧ svLt a.semver b.semver)

/-- Version key equivalence. -/
def SEq (a b : PackageInfo) : Prop :=
  a.hasSemver = b.hasSemver ∧ (a.hasSemver = true → a.semver = b.semver)

/-- The ordering policy of the group comparator, lexicographically: due-date
key, then version key, then first-seen index. -/
def PL (a b : PackageInfo) : Prop :=
  DLt a b ∨ (DEq a b ∧ (SLt a b ∨ (SEq a b ∧ a.firstOrder < b.firstOrder)))

theorem pkgLess_iff (a b : PackageInfo) : pkgLess a b = true ↔ PL a b := by
  unfold pkgLess PL DLt DEq SLt SEq
  by_cases hde : a.dueDate = b.dueDate <;>
    by_cases hsv : a.semver = b.semver <;>
      cases hda : a.hasDueDate <;> cases hdb : b.hasDueDate <;>
        cases hsa : a.hasSemver <;> cases hsb : b.hasSemver <;>
          simp [hda, hdb, hsa, hsb, hde, hsv, before_iff, equal_iff, cmp_lt_iff,
            cmp_zero_iff, bne_iff_ne, tLt, svLt] <;>
            (try omega) <;>
            exact fun h => Bool.eq_false_iff.mpr (fun hc => hde ((equal_iff _ _).mp hc))

/-- Full key equivalence of two group records. -/
def EPkg (a b : PackageInfo) : Prop :=
  DEq a b ∧ SEq a b ∧ a.firstOrder = b.firstOrder

theorem time_eq_of_parts {u v : Time} (hd : u.day = v.day) (ht : u.tod = v.tod) : u = v := by
  cases u
  cases v
  simp_all

theorem semver_eq_of_parts {u v : Semver} (h1 : u.major = v.major) (h2 : u.minor = v.minor)
    (h3 : u.patch = v.patch) : u = v := by
  cases u
  cases v
  simp_all

theorem DLt_asymm {a b : PackageInfo} (h1 : DLt a b) (h2 : DLt b a) : False := by
  unfold DLt tLt at h1 h2
  rcases h1 with ⟨ha1, hb1⟩ | ⟨ha1, hb1, h1⟩ <;>
    rcases h2 with ⟨ha2, hb2⟩ | ⟨ha2, hb2, h2⟩ <;> simp_all <;> omega

theorem DLt_trans {a b c : PackageInfo} (h1 : DLt a b) (h2 : DLt b c) : DLt a c := by
  unfold DLt tLt at h1 h2 ⊢
  rcases h1 with ⟨ha1, hb1⟩ | ⟨ha1, hb1, h1⟩ <;>
    rcases h2 with ⟨ha2, hb2⟩ | ⟨ha2, hb2, h2⟩ <;> simp_all <;> omega

theorem DEq_symm {a b : PackageInfo} (h : DEq a b) : DEq b a := by
  unfold DEq at h ⊢
  constructor
  · exact h.1.symm
  · intro hb
    exact (h.2 (h.1.trans hb)).symm

theorem DEq_trans {a b c : PackageInfo} (h1 : DEq a b) (h2 : DEq b c) : DEq a c := by
  unfold DEq at h1 h2 ⊢
  constructor
  · exact h1.1.trans h2.1
  · intro ha
    exact (h1.2 ha).trans (h2.2 (h1.1.symm.trans ha))

theorem DEq_DLt {a b c : PackageInfo} (he : DEq a b) (h : DLt b c) : DLt a c := by
  unfold DEq at he
  unfold DLt tLt at h ⊢
  rcases h with ⟨hb, hc⟩ | ⟨hb, hc, h⟩ <;> simp_all <;> omega

theorem DLt_DEq {a b c : PackageInfo} (h : DLt a b) (he : DEq b c) : DLt a c := by
  unfold DEq at he
  unfold DLt tLt at h ⊢
  rcases h with ⟨ha, hb⟩ | ⟨ha, hb, h⟩ <;> simp_all <;> omega

theorem D_connex {a b : PackageInfo} (h1 : ¬DLt a b) (h2 : ¬DLt b a) : DEq a b := by
  unfold DLt tLt at h1 h2
  unfold DEq
  cases hda : a.hasDueDate <;> cases hdb : b.hasDueDate <;> simp_all
  · exact time_eq_of_parts (by omega) (by omega)

theorem SLt_asymm {a b : PackageInfo} (h1 : SLt a b) (h2 : SLt b a) : False := by
  unfold SLt svLt at h1 h2
  rcases h1 with ⟨ha1, hb1⟩ | ⟨ha1, hb1, h1⟩ <;>
    rcases h2 with ⟨ha2, hb2⟩ | ⟨ha2, hb2, h2⟩ <;> simp_all <;> omega

theorem SLt_trans {a b c : PackageInfo} (h1 : SLt a b) (h2 : SLt b c) : SLt a c := by
  unfold SLt svLt at h1 h2 ⊢
  rcases h1 with ⟨ha1, hb1⟩ | ⟨ha1, hb1, h1⟩ <;>
    rcases h2 with ⟨ha2, hb2⟩ | ⟨ha2, hb2, h2⟩ <;> simp_all <;> omega

theorem SEq_symm {a b : PackageInfo} (h : SEq a b) : SEq b a := by
  unfold SEq at h ⊢
  constructor
  · exact h.1.symm
  · intro hb
    exact (h.2 (h.1.trans hb)).symm

theorem SEq_trans {a b c : PackageInfo} (h1 : SEq a b) (h2 : SEq b c) : SEq a c := by
  unfold SEq at h1 h2 ⊢
  constructor
  · exact h1.1.trans h2.1
  · intro ha
    exact (h1.2 ha).trans (h2.2 (h1.1.symm.trans ha))

theorem SEq_SLt {a b c : PackageInfo} (he : SEq a b) (h : SLt b c) : SLt a c := by
  unfold SEq at he
  unfold SLt svLt at h ⊢
  rcases h with ⟨hb, hc⟩ | ⟨hb, hc, h⟩ <;> simp_all <;> omega

theorem SLt_SEq {a b c : PackageInfo} (h : SLt a b) (he : SEq b c) : SLt a c := by
  unfold SEq at he
  unfold SLt svLt at h ⊢
  rcases h with ⟨ha, hb⟩ | ⟨ha, hb, h⟩ <;> simp_all <;> omega

theorem S_connex {a b : PackageInfo} (h1 : ¬SLt a b) (h2 : ¬SLt b a) : SEq a b := by
  unfold SLt svLt at h1 h2
  unfold SEq
  cases hsa : a.hasSemver <;> cases hsb : b.hasSemver <;> simp_all
  · exact semver_eq_of_parts (by omega) (by omega) (by omega)

theorem PL_asymm {a b : PackageInfo} (h1 : PL a b) (h2 : PL b a) : False := by
  unfold PL at h1 h2
  rcases h1 with hD1 | ⟨hE1, hS1⟩ <;> rcases h2 with hD2 | ⟨hE2, hS2⟩
  · exact DLt_asymm hD1 hD2
  · exact DLt_asymm (DLt_DEq hD1 hE2) (DLt_DEq hD1 hE2)
  · exact DLt_asymm (DLt_DEq hD2 hE1) (DLt_DEq hD2 hE1)
  · rcases hS1 with hs1 | ⟨he1, hf1⟩ <;> rcases hS2 with hs2 | ⟨he2, hf2⟩
    · exact SLt_asymm hs1 hs2
    · exact SLt_asymm (SLt_SEq hs1 he2) (SLt_SEq hs1 he2)
    · exact SLt_asymm (SLt_SEq hs2 he1) (SLt_SEq hs2 he1)
    · omega

theorem PL_trans {a b c : PackageInfo} (h1 : PL a b) (h2 : PL b c) : PL a c := by
  unfold PL at h1 h2 ⊢
  rcases h1 with hD1 | ⟨hE1, hS1⟩ <;> rcases h2 with hD2 | ⟨hE2, hS2⟩
  · exact Or.inl (DLt_trans hD1 hD2)
  · exact Or.inl (DLt_DEq hD1 hE2)
  · exact Or.inl (DEq_DLt hE1 hD2)
  · refine Or.inr ⟨DEq_trans hE1 hE2, ?_⟩
    rcases hS1 with hs1 | ⟨he1, hf1⟩ <;> rcases hS2 with hs2 | ⟨he2, hf2⟩
    · exact Or.inl (SLt_trans hs1 hs2)
    · exact Or.inl (SLt_SEq hs1 he2)
    · exact Or.inl (SEq_SLt he1 hs2)
    · exact Or.inr ⟨SEq_trans he1 he2, by omega⟩

theorem PL_connex {a b : PackageInfo} (h1 : ¬PL a b) (h2 : ¬PL b a) : EPkg a b := by
  have hd1 : ¬DLt a b := fun h => h1 (Or.inl h)
  have hd2 : ¬DLt b a := fun h => h2 (Or.inl h)
  have hD : DEq a b := D_connex hd1 hd2
  have hs1 : ¬SLt a b := fun hs => h1 (Or.inr ⟨hD, Or.inl hs⟩)
  have hs2 : ¬SLt b a := fun hs => h2 (Or.inr ⟨DEq_symm hD, Or.inl hs⟩)
  have hS : SEq a b := S_connex hs1 hs2
  have hf1 : ¬a.firstOrder < b.firstOrder := fun hf => h1 (Or.inr ⟨hD, Or.inr ⟨hS, hf⟩⟩)
  have hf2 : ¬b.firstOrder < a.firstOrder := fun hf =>
    h2 (Or.inr ⟨DEq_symm hD, Or.inr ⟨SEq_symm hS, hf⟩⟩)
  exact ⟨hD, hS, by omega⟩

theorem EPkg_PL {a b c : PackageInfo} (he : EPkg a b) (h : PL c a) : PL c b := by
  unfold PL at h ⊢
  rcases h with hD | ⟨hE, hS⟩
  · exact Or.inl (DLt_DEq hD he.1)
  · refine Or.inr ⟨DEq_trans hE he.1, ?_⟩
    rcases hS with hs | ⟨hse, hf⟩
    · exact Or.inl (SLt_SEq hs he.2.1)
    · exact Or.inr ⟨SEq_trans hse he.2.1, by rw [← he.2.2]; exact hf⟩

theorem pkgLess_false_iff (a b : PackageInfo) : pkgLess a b = false ↔ ¬PL a b := by
  rw [← pkgLess_iff]
  constructor
  · intro h hc
    rw [h] at hc
    cases hc
  · intro h
    exact Bool.eq_false_iff.mpr h

theorem pkgLe_true_iff (a b : PackageInfo) : pkgLe a b = true ↔ ¬PL b a := by
  unfold pkgLe
  rw [Bool.not_eq_true']
  exact pkgLess_false_iff b a

theorem pkgLe_total (a b : PackageInfo) : pkgLe a b = true ∨ pkgLe b a = true := by
  rw [pkgLe_true_iff, pkgLe_true_iff]
  by_cases h : PL b a
  · exact Or.inr (fun hc => PL_asymm hc h)
  · exact Or.inl h

theorem pkgLe_trans (a b c : PackageInfo) (h1 : pkgLe a b = true) (h2 : pkgLe b c = true) :
    pkgLe a c = true := by
  rw [pkgLe_true_iff] at h1 h2 ⊢
  intro hca
  by_cases hab : PL a b
  · exact h2 (PL_trans hca hab)
  · exact h2 (EPkg_PL (PL_connex hab h1) hca)

theorem orderedPackages_sorted (store : Store) :
    (orderedPackages store).Pairwise (fun a b => pkgLe a b = true) := by
  haveI : IsTotal PackageInfo (fun a b => pkgLe a b = true) := ⟨pkgLe_total⟩
  haveI : IsTrans PackageInfo (fun a b => pkgLe a b = true) := ⟨pkgLe_trans⟩
  exact List.sorted_insertionSort _ _

theorem rank_lt_of_pkgLess (store : Store) {i j : Nat}
    (hi : i < (orderedPackages store).length) (hj : j < (orderedPackages store).length)
    (h : pkgLess ((orderedPackages store).get ⟨i, hi⟩)
      ((orderedPackages store).get ⟨j, hj⟩) = true) :
    i < j := by
  by_contra hij
  rcases Nat.lt_or_ge j i with hlt | hge
  · have hp := List.pairwise_iff_get.mp (orderedPackages_sorted store)
      ⟨j, hj⟩ ⟨i, hi⟩ hlt
    rw [pkgLe_true_iff] at hp
    exact hp ((pkgLess_iff _ _).mp h)
  · have hij2 : i = j := by omega
    subst hij2
    exact PL_asymm ((pkgLess_iff _ _).mp h) ((pkgLess_iff _ _).mp h)

/-- The grouping labels of a group-record list. -/
def idsOf (l : List PackageInfo) : List String := l.map (fun info => info.id)

theorem updateDue_id (info : PackageInfo) (d : Option Time) :
    (updateDue info d).id = info.id := by
  unfold updateDue
  cases d with
  | none => rfl
  | some t =>
    dsimp only
    split <;> rfl

theorem newPackageInfo_id (pkgID : String) (i : Nat) :
    (newPackageInfo pkgID i).id = pkgID := by
  unfold newPackageInfo
  split <;> rfl

theorem addPkg_ids (acc : List PackageInfo) (i : Nat) (w : IssueWithProject) :
    idsOf (addPkg acc i w)
      = if w.milestone = "" ∨ acc.any (fun info => info.id == w.milestone)
        then idsOf acc else idsOf acc ++ [w.milestone] := by
  unfold addPkg
  by_cases hm : w.milestone = ""
  · simp [hm]
  · have hm2 : (w.milestone == "") = false := by simp [hm]
    rw [hm2]
    simp only [Bool.false_eq_true, if_false]
    by_cases ha : acc.any (fun info => info.id == w.milestone) = true
    · rw [if_pos ha, if_pos (Or.inr ha)]
      unfold idsOf
      rw [List.map_map]
      apply List.map_congr_left
      intro info hmem
      dsimp only [Function.comp]
      split <;> simp [updateDue_id]
    · rw [if_neg ha, if_neg (by rw [not_or]; exact ⟨hm, ha⟩)]
      unfold idsOf
      rw [List.map_append]
      simp [updateDue_id, newPackageInfo_id]

theorem addPkg_ids_sup (acc : List PackageInfo) (i : Nat) (w : IssueWithProject)
    (x : String) (hx : x ∈ idsOf acc) : x ∈ idsOf (addPkg acc i w) := by
  rw [addPkg_ids]
  split
  · exact hx
  · exact List.mem_append_left _ hx

theorem addPkg_adds (acc : List PackageInfo) (i : Nat) (w : IssueWithProject)
    (hm : w.milestone ≠ "") : w.milestone ∈ idsOf (addPkg acc i w) := by
  rw [addPkg_ids]
  split
  case isTrue h =>
    rcases h with h | h
    · exact absurd h hm
    · rcases List.any_eq_true.mp h with ⟨info, hmem, hid⟩
      have : info.id = w.milestone := by simpa using hid
      rw [← this]
      exact List.mem_map.mpr ⟨info, hmem, rfl⟩
  case isFalse h =>
    exact List.mem_append_right _ (List.mem_singleton.mpr rfl)

theorem foldl_ids_mono (l : List (Nat × (String × IssueWithProject)))
    (acc : List PackageInfo) (x : String) (hx : x ∈ idsOf acc) :
    x ∈ idsOf (l.foldl (fun acc p => addPkg acc p.1 p.2.2) acc) := by
  induction l generalizing acc with
  | nil => exact hx
  | cons hd tl ih =>
    rw [List.foldl_cons]
    exact ih _ (addPkg_ids_sup _ _ _ _ hx)

theorem buildPackageInfos_mem (l : List (Nat × (String × IssueWithProject)))
    (p : Nat × (String × IssueWithProject)) (hp : p ∈ l) (hm : p.2.2.milestone ≠ "") :
    p.2.2.milestone ∈ idsOf (buildPackageInfos l) := by
  unfold buildPackageInfos
  have main : ∀ (l : List (Nat × (String × IssueWithProject))) (acc : List PackageInfo),
      p ∈ l → p.2.2.milestone ∈ idsOf (l.foldl (fun acc q => addPkg acc q.1 q.2.2) acc) := by
    intro l
    induction l with
    | nil => intro acc h; cases h
    | cons hd tl ih =>
      intro acc h
      rw [List.foldl_cons]
      rcases List.mem_cons.mp h with heq | hmem
      · subst heq
        exact foldl_ids_mono tl _ _ (addPkg_adds acc p.1 p.2.2 hm)
      · exact ih _ hmem
  exact main l [] hp

theorem addPkg_ids_nodup (acc : List PackageInfo) (i : Nat) (w : IssueWithProject)
    (h : (idsOf acc).Nodup) : (idsOf (addPkg acc i w)).Nodup := by
  rw [addPkg_ids]
  split
  case isTrue => exact h
  case isFalse hcond =>
    rw [not_or] at hcond
    rw [List.nodup_append]
    refine ⟨h, List.nodup_singleton _, ?_⟩
    intro x hx hx2
    rw [List.mem_singleton] at hx2
    subst hx2
    rcases List.mem_map.mp hx with ⟨info, hmem, hid⟩
    exact hcond.2 (List.any_eq_true.mpr ⟨info, hmem, by simp [hid]⟩)

theorem buildPackageInfos_ids_nodup (l : List (Nat × (String × IssueWithProject))) :
    (idsOf (buildPackageInfos l)).Nodup := by
  unfold buildPackageInfos
  have main : ∀ (l : List (Nat × (String × IssueWithProject))) (acc : List PackageInfo),
      (idsOf acc).Nodup →
        (idsOf (l.foldl (fun acc q => addPkg acc q.1 q.2.2) acc)).Nodup := by
    intro l
    induction l with
    | nil => intro acc h; exact h
    | cons hd tl ih =>
      intro acc h
      rw [List.foldl_cons]
      exact ih _ (addPkg_ids_nodup _ _ _ h)
  exact main l [] List.nodup_nil

theorem addPkg_ids_ne (acc : List PackageInfo) (i : Nat) (w : IssueWithProject)
    (h : ∀ x ∈ idsOf acc, x ≠ "") : ∀ x ∈ idsOf (addPkg acc i w), x ≠ "" := by
  intro x hx
  rw [addPkg_ids] at hx
  split at hx
  case isTrue => exact h x hx
  case isFalse hcond =>
    rw [not_or] at hcond
    rcases List.mem_append.mp hx with hx | hx
    · exact h x hx
    · rw [List.mem_singleton] at hx
      subst hx
      exact hcond.1

theorem buildPackageInfos_ids_ne (l : List (Nat × (String × IssueWithProject))) :
    ∀ x ∈ idsOf (buildPackageInfos l), x ≠ "" := by
  unfold buildPackageInfos
  have main : ∀ (l : List (Nat × (String × IssueWithProject))) (acc : List PackageInfo),
      (∀ x ∈ idsOf acc, x ≠ "") →
        ∀ x ∈ idsOf (l.foldl (fun acc q => addPkg acc q.1 q.2.2) acc), x ≠ "" := by
    intro l
    induction l with
    | nil => intro acc h; exact h
    | cons hd tl ih =>
      intro acc h
      rw [List.foldl_cons]
      exact ih _ (addPkg_ids_ne _ _ _ h)
  exact main l [] (by intro x hx; cases hx)

theorem findIdx?_get_of_nodup {α : Type} (f : α → String) (l : List α)
    (hnd : (l.map f).Nodup) (i : Nat) (hi : i < l.length) :
    l.findIdx? (fun a => f a == f (l.get ⟨i, hi⟩)) = some i := by
  induction l generalizing i with
  | nil => cases hi
  | cons hd tl ih =>
    rw [List.map_cons, List.nodup_cons] at hnd
    cases i with
    | zero =>
      rw [List.findIdx?_cons]
      rw [if_pos (by simp)]
    | succ n =>
      have hn : n < tl.length := by simpa using hi
      have hget : (hd :: tl).get ⟨n + 1, hi⟩ = tl.get ⟨n, hn⟩ := rfl
      rw [List.findIdx?_cons, hget]
      have hin : f (tl.get ⟨n, hn⟩) ∈ tl.map f :=
        List.mem_map.mpr ⟨tl.get ⟨n, hn⟩, List.get_mem tl n hn, rfl⟩
      have hne : (f hd == f (tl.get ⟨n, hn⟩)) = false :=
        beq_eq_false_iff_ne.mpr (fun hc => hnd.1 (hc ▸ hin))
      rw [if_neg (by simpa using hne)]
      rw [List.findIdx?_succ, ih hnd.2 n hn]
      rfl

theorem orderedPackages_ids_nodup (store : Store) :
    (idsOf (orderedPackages store)).Nodup := by
  have hperm := List.perm_insertionSort (fun a b => pkgLe a b = true)
    (buildPackageInfos (sortedIssues store).enum)
  have h2 := buildPackageInfos_ids_nodup (sortedIssues store).enum
  unfold idsOf at h2 ⊢
  unfold orderedPackages
  exact ((hperm.map (fun info => info.id)).nodup_iff).mpr h2

theorem orderedPackages_ids_ne (store : Store) :
    ∀ x ∈ idsOf (orderedPackages store), x ≠ "" := by
  intro x hx
  have hperm := List.perm_insertionSort (fun a b => pkgLe a b = true)
    (buildPackageInfos (sortedIssues store).enum)
  have h2 := buildPackageInfos_ids_ne (sortedIssues store).enum
  unfold idsOf at h2 hx
  unfold orderedPackages at hx
  exact h2 x ((hperm.map (fun info => info.id)).mem_iff.mp hx)

theorem pkgRank_get (store : Store) (i : Nat) (hi : i < (orderedPackages store).length) :
    pkgRank store ((orderedPackages store).get ⟨i, hi⟩).id = i := by
  have hne : ((orderedPackages store).get ⟨i, hi⟩).id ≠ "" := by
    apply orderedPackages_ids_ne store
    exact List.mem_map.mpr ⟨_, List.get_mem (orderedPackages store) i hi, rfl⟩
  unfold pkgRank
  rw [show ((((orderedPackages store).get ⟨i, hi⟩).id : String) == "") = false from
    beq_eq_false_iff_ne.mpr hne]
  simp only [Bool.false_eq_true, if_false]
  have hnd := orderedPackages_ids_nodup store
  unfold idsOf at hnd
  rw [findIdx?_get_of_nodup (fun info => info.id) (orderedPackages store) hnd i hi]

theorem task_rank_bounds (store : Store) :
    ∀ t ∈ (IssuesToTasks store).1,
      (t.packageID = "" → t.packageOrder = (orderedPackages store).length)
      ∧ (t.packageID ≠ "" → t.packageOrder < (orderedPackages store).length) := by
  intro t ht
  unfold IssuesToTasks at ht
  dsimp only at ht
  rcases List.mem_map.mp ht with ⟨q, hq, rfl⟩
  constructor
  · intro hempty
    have hm : q.2.2.milestone = "" := hempty
    show pkgRank store q.2.2.milestone = _
    unfold pkgRank
    rw [hm]
    simp
  · intro hne
    have hm : q.2.2.milestone ≠ "" := hne
    show pkgRank store q.2.2.milestone < _
    unfold pkgRank
    rw [show ((q.2.2.milestone == "") : Bool) = false from beq_eq_false_iff_ne.mpr hm]
    simp only [Bool.false_eq_true, if_false]
    have hmem : q.2.2.milestone ∈ idsOf (orderedPackages store) := by
      have h1 := buildPackageInfos_mem (sortedIssues store).enum q hq hm
      have hperm := List.perm_insertionSort (fun a b => pkgLe a b = true)
        (buildPackageInfos (sortedIssues store).enum)
      unfold idsOf at h1 ⊢
      unfold orderedPackages
      exact ((hperm.map (fun info => info.id)).mem_iff).mpr h1
    cases hfi : (orderedPackages store).findIdx? (fun info => info.id == q.2.2.milestone) with
    | none =>
      exfalso
      rw [List.findIdx?_eq_none_iff] at hfi
      unfold idsOf at hmem
      rcases List.mem_map.mp hmem with ⟨info, hinfo, hid⟩
      have hforall := hfi info hinfo
      rw [hid] at hforall
      simp at hforall
    | some k =>
      dsimp only
      exact (List.findIdx?_eq_some_iff_findIdx_eq.mp hfi).1

/-- C9: the package orderer ranks groups lexicographically - a due-dated
group strictly before an undated one, earlier due dates first, then (under
equal due-date keys) a parsed version before none, ascending versions, and
first-seen index as the final tie-break; each group label's rank is its
position in the ordered group list; every task's group rank is below the
group count exactly when it has a grouping label, and the ungrouped rank
equals the group count (hence after every real group). -/
theorem C9_package_order (store : Store) :
    (∀ i (hi : i < (orderedPackages store).length),
        pkgRank store ((orderedPackages store).get ⟨i, hi⟩).id = i)
    ∧ (∀ i j (hi : i < (orderedPackages store).length)
          (hj : j < (orderedPackages store).length),
        ((orderedPackages store).get ⟨i, hi⟩).hasDueDate = true →
        ((orderedPackages store).get ⟨j, hj⟩).hasDueDate = false → i < j)
    ∧ (∀ i j (hi : i < (orderedPackages store).length)
          (hj : j < (orderedPackages store).length),
        ((orderedPackages store).get ⟨i, hi⟩).hasDueDate = true →
        ((orderedPackages store).get ⟨j, hj⟩).hasDueDate = true →
        tLt ((orderedPackages store).get ⟨i, hi⟩).dueDate
          ((orderedPackages store).get ⟨j, hj⟩).dueDate → i < j)
    ∧ (∀ i j (hi : i < (orderedPackages store).length)
          (hj : j < (orderedPackages store).length),
        DEq ((orderedPackages store).get ⟨i, hi⟩) ((orderedPackages store).get ⟨j, hj⟩) →
        ((orderedPackages store).get ⟨i, hi⟩).hasSemver = true →
        ((orderedPackages store).get ⟨j, hj⟩).hasSemver = false → i < j)
    ∧ (∀ i j (hi : i < (orderedPackages store).length)
          (hj : j < (orderedPackages store).length),
        DEq ((orderedPackages store).get ⟨i, hi⟩) ((orderedPackages store).get ⟨j, hj⟩) →
        ((orderedPackages store).get ⟨i, hi⟩).hasSemver = true →
        ((orderedPackages store).get ⟨j, hj⟩).hasSemver = true →
        compareSemver ((orderedPackages store).get ⟨i, hi⟩).semver
          ((orderedPackages store).get ⟨j, hj⟩).semver < 0 → i < j)
    ∧ (∀ i j (hi : i < (orderedPackages store).length)
          (hj : j < (orderedPackages store).length),
        DEq ((orderedPackages store).get ⟨i, hi⟩) ((orderedPackages store).get ⟨j, hj⟩) →
        SEq ((orderedPackages store).get ⟨i, hi⟩) ((orderedPackages store).get ⟨j, hj⟩) →
        ((orderedPackages store).get ⟨i, hi⟩).firstOrder
          < ((orderedPackages store).get ⟨j, hj⟩).firstOrder → i < j)
    ∧ (∀ t ∈ (IssuesToTasks store).1,
        (t.packageID = "" → t.packageOrder = (orderedPackages store).length)
        ∧ (t.packageID ≠ "" → t.packageOrder < (orderedPackages store).length)) := by
  refine ⟨pkgRank_get store, ?_, ?_, ?_, ?_, ?_, task_rank_bounds store⟩
  · intro i j hi hj h1 h2
    apply rank_lt_of_pkgLess store hi hj
    rw [pkgLess_iff]
    exact Or.inl (Or.inl ⟨h1, h2⟩)
  · intro i j hi hj h1 h2 hlt
    apply rank_lt_of_pkgLess store hi hj
    rw [pkgLess_iff]
    exact Or.inl (Or.inr ⟨h1, h2, hlt⟩)
  · intro i j hi hj hde h1 h2
    apply rank_lt_of_pkgLess store hi hj
    rw [pkgLess_iff]
    exact Or.inr ⟨hde, Or.inl (Or.inl ⟨h1, h2⟩)⟩
  · intro i j hi hj hde h1 h2 hcmp
    apply rank_lt_of_pkgLess store hi hj
    rw [pkgLess_iff]
    exact Or.inr ⟨hde, Or.inl (Or.inr ⟨h1, h2, (cmp_lt_iff _ _).mp hcmp⟩)⟩
  · intro i j hi hj hde hse hf
    apply rank_lt_of_pkgLess store hi hj
    rw [pkgLess_iff]
    exact Or.inr ⟨hde, Or.inr ⟨hse, hf⟩⟩

/-- The concrete store for the C9 witness: an undated group "alpha" seen
first, a due-dated versioned group "v1.2.3" seen second, and an ungrouped
item. -/
def c9Store : Store :=
  [("github.com/o/r/issues/1",
    { owner := "o", repo := "r", issueNum := 1, state := "open", milestone := "alpha",
      order := 0 }),
   ("github.com/o/r/issues/2",
    { owner := "o", repo := "r", issueNum := 2, state := "open", milestone := "v1.2.3",
      milestoneDueDate := some ⟨5, 0⟩, order := 1 }),
   ("github.com/o/r/issues/3",
    { owner := "o", repo := "r", issueNum := 3, state := "open", order := 2 })]

/-- Witness for C9: the due-dated group "v1.2.3" ranks before the undated
first-seen group "alpha", and the ungrouped task's rank (2) sits strictly
after both groups' ranks. -/
theorem C9_package_order_witness :
    idsOf (orderedPackages c9Store) = ["v1.2.3", "alpha"]
    ∧ pkgRank c9Store "v1.2.3" = 0
    ∧ pkgRank c9Store "alpha" = 1
    ∧ pkgRank c9Store "" = 2
    ∧ (∀ t ∈ (IssuesToTasks c9Store).1,
        (t.packageID = "" → t.packageOrder = (orderedPackages c9Store).length)
        ∧ (t.packageID ≠ "" → t.packageOrder < (orderedPackages c9Store).length)) :=
  ⟨by decide, by decide, by decide, by decide,
    (C9_package_order c9Store).2.2.2.2.2.2⟩

end P2
